import Mathlib

/-
  Verification development for the Device_Generator repository.

  The Python source is shallowly embedded: diffusion/gate terminal records
  become the `Node` structure (the `uid` field models Python object identity,
  since `MOSFET_Node` has no custom equality and lists of such records compare
  element-wise by identity); the `defaultdict(list)`-backed Euler multigraph
  becomes an insertion-ordered association list; Python floats become exact
  fractions (`PyF`; all concrete inputs used below are dyadic, where
  IEEE-754 arithmetic is exact); mutation becomes explicit state passing; unbounded recursion takes
  an explicit fuel argument; Python exceptions become an error type.
-/

namespace DevGen

/-- Possible abnormal outcomes of the embedded Python code. -/
inductive PyErr where
  | indexError
  | attributeError
  | typeError
  | nameError
  | sysExit
  | fuelOut
  | zeroDivError
deriving DecidableEq, Repr

/-- Exact fraction arithmetic for the embedded Python floats.  Mathlib's `ℚ`
normalizes through `Nat.gcd`, which the kernel cannot evaluate inside
`decide`, so the embedding uses raw numerator/denominator pairs with a
positive denominator and no normalization.  Every concrete input used in the
theorems below is dyadic, where Python's IEEE-754 double arithmetic is exact,
so this models the source's float arithmetic faithfully there. -/
structure PyF where
  n : ℤ
  d : ℤ
  dpos : 0 < d
deriving DecidableEq

instance : Repr PyF := ⟨fun x _ => repr (x.n, x.d)⟩

/-- Embed an integer. -/
def PyF.ofInt (k : ℤ) : PyF := ⟨k, 1, one_pos⟩

instance (k : ℕ) : OfNat PyF k := ⟨PyF.ofInt k⟩

instance : Add PyF :=
  ⟨fun a b => ⟨a.n * b.d + b.n * a.d, a.d * b.d, mul_pos a.dpos b.dpos⟩⟩

instance : Neg PyF := ⟨fun a => ⟨-a.n, a.d, a.dpos⟩⟩

instance : Sub PyF := ⟨fun a b => a + -b⟩

instance : Mul PyF :=
  ⟨fun a b => ⟨a.n * b.n, a.d * b.d, mul_pos a.dpos b.dpos⟩⟩

/-- Division, keeping the denominator positive.  Division by an exact zero
raises `ZeroDivisionError` in Python; the model returns zero there (no claim
exercises that case without an explicit guard). -/
instance : Div PyF :=
  ⟨fun a b =>
    if h : 0 < b.n then ⟨a.n * b.d, a.d * b.n, mul_pos a.dpos h⟩
    else if h2 : b.n < 0 then
      ⟨-(a.n * b.d), a.d * (-b.n), mul_pos a.dpos (by omega)⟩
    else ⟨0, 1, one_pos⟩⟩

instance : LE PyF := ⟨fun a b => a.n * b.d ≤ b.n * a.d⟩

instance : LT PyF := ⟨fun a b => a.n * b.d < b.n * a.d⟩

instance : DecidableRel (fun (a b : PyF) => a ≤ b) := fun _ _ => Int.decLe _ _

instance : DecidableRel (fun (a b : PyF) => a < b) := fun _ _ => Int.decLt _ _

/-- Python `max(a, b)`: the first argument wins ties. -/
def pyMax (a b : PyF) : PyF := if a.n * b.d < b.n * a.d then b else a

/-- Python `max(a, b, c)`. -/
def pyMax3 (a b c : PyF) : PyF := pyMax (pyMax a b) c

/-- Numeric value as a rational, for stating and proving order facts. -/
def PyF.toQ (a : PyF) : ℚ := (a.n : ℚ) / (a.d : ℚ)

/-- Python `int(...)` truncation toward zero. -/
def pyTrunc (x : PyF) : ℤ := x.n.tdiv x.d

/-- Python `round(...)`: round half to even. -/
def pyRound (x : PyF) : ℤ :=
  let q := x.n.fdiv x.d
  let r := x.n.fmod x.d
  if 2 * r < x.d then q
  else if x.d < 2 * r then q + 1
  else if q % 2 = 0 then q else q + 1

/-- Bisection for the integer square root: largest `r` in `[lo, hi]` with
`r * r ≤ n`, assuming `lo * lo ≤ n`; 128 rounds cover every value a double
can hold exactly. -/
def natSqrtBisect (n : ℕ) (lo hi : ℕ) : ℕ → ℕ
  | 0 => lo
  | f+1 =>
    if lo < hi then
      let mid := (lo + hi + 1) / 2
      if mid * mid ≤ n then natSqrtBisect n mid hi f
      else natSqrtBisect n lo (mid - 1) f
    else lo

/-- `math.sqrt`, exact on the perfect rational squares that arise at every
use in this development (`sqrt (n/d) = sqrt (n*d) / d`). -/
def pySqrt (x : PyF) : PyF :=
  if x.n ≤ 0 then 0
  else ⟨(natSqrtBisect (x.n.toNat * x.d.toNat) 0 (x.n.toNat * x.d.toNat)
          128 : ℤ), x.d, x.dpos⟩

/-- Terminal record (`MOSFET_Node` of Topo.py / `Node` endpoints of
EulerGraph.py): a typed terminal with a net name and device dimensions.
`uid` models Python object identity (fresh objects get fresh uids). -/
structure Node where
  type : String
  net : String
  length : PyF
  width : PyF
  uid : ℕ
deriving DecidableEq, Repr

/-- `EulerEdge` of EulerGraph.py: one half-edge record with its two endpoint
terminal records and the interior list `e`. -/
structure EulerEdge where
  u : Node
  v : Node
  e : List Node
deriving DecidableEq, Repr

/-- The multigraph of EulerGraph.py: `defaultdict(list)` keyed by net name,
modelled as an insertion-ordered association list. -/
abbrev Graph := List (String × List EulerEdge)

/-- Adjacency list of a net (empty when the key is absent). -/
def graphGet : Graph → String → List EulerEdge
  | [], _ => []
  | p :: rest, k => if p.1 = k then p.2 else graphGet rest k

/-- Whether a net is present in the key table. -/
def graphHasKey : Graph → String → Bool
  | [], _ => false
  | p :: rest, k => p.1 == k || graphHasKey rest k

/-- Replace the adjacency list stored under a key (the key must exist;
otherwise the graph is returned unchanged). -/
def graphSet : Graph → String → List EulerEdge → Graph
  | [], _, _ => []
  | (k0, l0) :: rest, k, l =>
    if k0 = k then (k, l) :: rest else (k0, l0) :: graphSet rest k l

/-- `defaultdict` key creation: accessing a missing key appends it with an
empty list, preserving insertion order of the key table. -/
def graphEnsure (g : Graph) (k : String) : Graph :=
  if graphHasKey g k then g else g ++ [(k, [])]

/-- Python `list.insert i x`: clamps the index into range. -/
def pyInsert {α : Type} (l : List α) (i : ℕ) (x : α) : List α :=
  l.take i ++ x :: l.drop i

/-- `EulerGraph.add_edge`: append (or insert at `index`) the half-edge to
`graph[u.net]` and its reverse-interior mirror to `graph[v.net]`. -/
def addEdge (g : Graph) (u v : Node) (e : List Node) (index : Option ℕ) : Graph :=
  let g0 := graphEnsure (graphEnsure g u.net) v.net
  match index with
  | none =>
    let g1 := graphSet g0 u.net (graphGet g0 u.net ++ [⟨u, v, e⟩])
    graphSet g1 v.net (graphGet g1 v.net ++ [⟨v, u, e.reverse⟩])
  | some i =>
    let g1 := graphSet g0 u.net (pyInsert (graphGet g0 u.net) i ⟨u, v, e⟩)
    graphSet g1 v.net (pyInsert (graphGet g1 v.net) i ⟨v, u, e.reverse⟩)

/-- Match condition of the first loop of `EulerGraph.remove_edge`: the
adjacent net equals `v` and the interior equals `e`. -/
def matchFwd (u v : String) (e : List Node) (edge : EulerEdge) : Bool :=
  (if edge.u.net = u then edge.v.net else edge.u.net) == v && edge.e == e

/-- Match condition of the second loop of `EulerGraph.remove_edge`: the
adjacent net equals `u` and the reversed interior equals `e`. -/
def matchRev (u v : String) (e : List Node) (edge : EulerEdge) : Bool :=
  (if edge.v.net = v then edge.u.net else edge.v.net) == u && edge.e.reverse == e

/-- One `for i, edge in enumerate(...): ... del ...[i]; break` loop of
`remove_edge`: returns the list after deleting the first match together with
the final value of the Python loop variable `i` (the deletion index on a
break; the last index if the loop ran without a break; `none` if the list
was empty so `i` was never bound). -/
def loopDel (p : EulerEdge → Bool) (l : List EulerEdge) : List EulerEdge × Option ℕ :=
  match l.findIdx? p with
  | some i => (l.eraseIdx i, some i)
  | none => (l, if l.isEmpty then none else some (l.length - 1))

/-- `EulerGraph.remove_edge`: delete the first matching half-edge under `u`,
then the first reverse-matching half-edge under `v`, and return the final
value of the loop variable `i` (which the second loop overwrote whenever
`graph[v]` was nonempty). `none` models the `NameError` raised when `i` was
never bound. -/
def removeEdge (g : Graph) (u v : String) (e : List Node) : Graph × Option ℕ :=
  let g0 := graphEnsure (graphEnsure g u) v
  let r1 := loopDel (matchFwd u v e) (graphGet g0 u)
  let g1 := graphSet g0 u r1.1
  let r2 := loopDel (matchRev u v e) (graphGet g1 v)
  let g2 := graphSet g1 v r2.1
  (g2, r2.2.orElse fun _ => r1.2)

/-- `Fleury_Algorithm.initial_node`: the first net in insertion order whose
half-edge list has odd length; otherwise the first net of the table. `none`
models the `IndexError` on an empty table or an exhausted first net. -/
def initialNode (g : Graph) : Option Node :=
  match g.find? (fun p => p.2.length % 2 == 1) with
  | some (k, l) =>
    match l with
    | [] => none
    | e0 :: _ => some (if e0.u.net = k then e0.u else e0.v)
  | none =>
    match g with
    | [] => none
    | (k, l) :: _ =>
      match l with
      | [] => none
      | e0 :: _ => some (if e0.u.net = k then e0.u else e0.v)

mutual

/-- `Fleury_Algorithm.dfs_visit`: depth-first reachability walk recording
visited net names, with explicit fuel. -/
def dfsVisit : ℕ → Graph → String → List String → Except PyErr (List String)
  | 0, _, _, _ => .error .fuelOut
  | fuel+1, g, fromN, visited =>
    dfsVisitList fuel g (graphGet g fromN) fromN (visited ++ [fromN])

/-- The edge loop inside `dfs_visit` (the graph is not mutated during the
walk, so the iterated list is a stable snapshot). -/
def dfsVisitList : ℕ → Graph → List EulerEdge → String → List String →
    Except PyErr (List String)
  | 0, _, _, _, _ => .error .fuelOut
  | _+1, _, [], _, visited => .ok visited
  | fuel+1, g, edge :: rest, fromN, visited =>
    let toN := if edge.u.net = fromN then edge.v.net else edge.u.net
    if visited.contains toN then dfsVisitList fuel g rest fromN visited
    else
      match dfsVisit fuel g toN visited with
      | .error err => .error err
      | .ok visited2 => dfsVisitList fuel g rest fromN visited2

end

/-- `Fleury_Algorithm.is_bridge`: remove the edge, run `dfs_visit` from
`edge.u.net`, re-add the edge at the index `remove_edge` returned, and report
whether `edge.v.net` was left unreachable.  Returns the (possibly permuted)
graph alongside the answer. -/
def isBridge (fuel : ℕ) (g : Graph) (edge : EulerEdge) : Except PyErr (Bool × Graph) :=
  let fromN := edge.u.net
  let toN := edge.v.net
  let r := removeEdge g fromN toN edge.e
  match r.2 with
  | none => .error .nameError
  | some i =>
    match dfsVisit fuel r.1 fromN [] with
    | .error err => .error err
    | .ok visited =>
      let g2 := addEdge r.1 edge.u edge.v edge.e (some i)
      .ok (!(visited.contains toN), g2)

/-- `Fleury_Algorithm.dfs_order`, with the Python `for edge in list` iterator
made explicit as the index `k` into the current (mutating) adjacency list:
at each step the loop re-reads `graph[from_node]`, stops when `k` reaches its
current length, and otherwise examines the edge now sitting at position `k`. -/
def dfsStep : ℕ → Graph → String → List Node → Bool → ℕ →
    Except PyErr (Graph × List Node)
  | 0, _, _, _, _, _ => .error .fuelOut
  | fuel+1, g, fromN, circuit, finger, k =>
    let L := graphGet g fromN
    if h : k < L.length then
      let edge := L.get ⟨k, h⟩
      let toN := if edge.u.net = fromN then edge.v else edge.u
      let frN := if edge.u.net = fromN then edge.u else edge.v
      if L.length == 1 then
        let circuit2 := circuit ++ (if finger then edge.e ++ [toN] else frN :: (edge.e ++ [toN]))
        let g1 := (removeEdge g fromN toN.net edge.e).1
        match dfsStep fuel g1 toN.net circuit2 finger 0 with
        | .error err => .error err
        | .ok (g2, c2) => dfsStep fuel g2 fromN c2 finger (k+1)
      else
        match isBridge fuel g edge with
        | .error err => .error err
        | .ok (b, g1) =>
          if b then dfsStep fuel g1 fromN circuit finger (k+1)
          else
            let circuit2 := circuit ++ (if finger then edge.e ++ [toN] else frN :: (edge.e ++ [toN]))
            let g2 := (removeEdge g1 fromN toN.net edge.e).1
            match dfsStep fuel g2 toN.net circuit2 finger 0 with
            | .error err => .error err
            | .ok (g3, c3) => dfsStep fuel g3 fromN c3 finger (k+1)
    else .ok (g, circuit)

/-- The `while True` loop of `Fleury_Algorithm.fleury_algorithm`: choose a
start node, run one `dfs_order` pass, append its order, and repeat while any
net still has half-edges. -/
def fleuryRun : ℕ → Graph → Bool → List Node → Except PyErr (List Node)
  | 0, _, _, _ => .error .fuelOut
  | fuel+1, g, finger, acc =>
    match initialNode g with
    | none => .error .indexError
    | some start =>
      let order0 : List Node := if finger then [start] else []
      match dfsStep fuel g start.net order0 finger 0 with
      | .error err => .error err
      | .ok (g1, order) =>
        let acc2 := acc ++ order
        if g1.any (fun p => decide (p.2.length > 0)) then fleuryRun fuel g1 finger acc2
        else .ok acc2

/-- `Fleury_Algorithm.fleury_algorithm`. -/
def fleuryAlgorithm (fuel : ℕ) (g : Graph) (finger : Bool) : Except PyErr (List Node) :=
  fleuryRun fuel g finger []

/-- Build a multigraph by `add_edge`-inserting the listed edges in order. -/
def mkGraph (edges : List (Node × Node × List Node)) : Graph :=
  edges.foldl (fun g t => addEdge g t.1 t.2.1 t.2.2 none) []

end DevGen

namespace DevGen

section GraphLemmas

/-- A net with a nonempty adjacency list is present in the key table. -/
theorem hasKey_of_graphGet_ne_nil {g : Graph} {k : String}
    (h : graphGet g k ≠ []) : graphHasKey g k = true := by
  induction g with
  | nil => simp [graphGet] at h
  | cons p rest ih =>
    by_cases hk : p.1 = k
    · simp [graphHasKey, hk]
    · rw [graphGet, if_neg hk] at h
      simp [graphHasKey, ih h]

/-- Accessing an existing key does not change the graph. -/
theorem graphEnsure_of_hasKey {g : Graph} {k : String}
    (h : graphHasKey g k = true) : graphEnsure g k = g := by
  simp [graphEnsure, h]

/-- Setting an existing key stores the new list under it. -/
theorem graphGet_graphSet_self {g : Graph} {k : String}
    (h : graphHasKey g k = true) (l : List EulerEdge) :
    graphGet (graphSet g k l) k = l := by
  induction g with
  | nil => simp [graphHasKey] at h
  | cons p rest ih =>
    by_cases hk : p.1 = k
    · cases p with
      | mk k0 l0 => simp only at hk; simp [graphSet, hk, graphGet]
    · cases p with
      | mk k0 l0 =>
        simp only at hk
        have h' : graphHasKey rest k = true := by
          simpa [graphHasKey, hk] using h
        simp [graphSet, hk, graphGet, ih h']

/-- Setting one key leaves every other key's list unchanged. -/
theorem graphGet_graphSet_ne {g : Graph} {k k' : String}
    (h : k ≠ k') (l : List EulerEdge) :
    graphGet (graphSet g k l) k' = graphGet g k' := by
  induction g with
  | nil => simp [graphSet]
  | cons p rest ih =>
    cases p with
    | mk k0 l0 =>
      by_cases hk : k0 = k
      · simp [graphSet, hk, graphGet, h, Ne.symm h]
      · simp [graphSet, hk, graphGet, ih]

/-- Setting a key does not create or destroy keys. -/
theorem hasKey_graphSet (g : Graph) (k k' : String) (l : List EulerEdge) :
    graphHasKey (graphSet g k l) k' = graphHasKey g k' := by
  induction g with
  | nil => simp [graphSet]
  | cons p rest ih =>
    cases p with
    | mk k0 l0 =>
      by_cases hk : k0 = k
      · simp [graphSet, hk, graphHasKey]
      · simp [graphSet, hk, graphHasKey, ih]

/-- The first match in `l1 ++ x :: l2` sits at index `l1.length` when nothing
in `l1` matches and `x` does. -/
theorem findIdx?_first {α : Type} (p : α → Bool) (l1 : List α) (x : α)
    (l2 : List α) (h1 : ∀ y ∈ l1, p y = false) (hx : p x = true) :
    (l1 ++ x :: l2).findIdx? p = some l1.length := by
  induction l1 with
  | nil => simp [List.findIdx?_cons, hx]
  | cons a as ih =>
    have ha : p a = false := h1 a (by simp)
    have ih' := ih (fun y hy => h1 y (by simp [hy]))
    simp [List.findIdx?_cons, ha, ih']

/-- Deleting at index `l1.length` removes exactly the middle element. -/
theorem eraseIdx_at_len {α : Type} (l1 : List α) (x : α) (l2 : List α) :
    (l1 ++ x :: l2).eraseIdx l1.length = l1 ++ l2 := by
  induction l1 with
  | nil => rfl
  | cons a as ih => simpa [List.eraseIdx] using ih

/-- Python `insert` at `l1.length` into `l1 ++ l2` puts the element between
the two parts. -/
theorem pyInsert_at_len {α : Type} (l1 l2 : List α) (x : α) :
    pyInsert (l1 ++ l2) l1.length x = l1 ++ x :: l2 := by
  simp [pyInsert, List.take_left, List.drop_left]

/-- Python `insert` at any index is a permutation of consing the element. -/
theorem pyInsert_perm {α : Type} (l : List α) (i : ℕ) (x : α) :
    (pyInsert l i x).Perm (x :: l) := by
  unfold pyInsert
  refine List.Perm.trans List.perm_middle ?_
  rw [List.take_append_drop]

end GraphLemmas

end DevGen

namespace DevGen

/-- The forward match condition accepts the half-edge itself. -/
theorem matchFwd_self (u v : Node) (e : List Node) :
    matchFwd u.net v.net e ⟨u, v, e⟩ = true := by
  simp [matchFwd]

/-- The reverse match condition accepts the mirrored half-edge when the two
endpoint nets differ. -/
theorem matchRev_self (u v : Node) (e : List Node) (hne : u.net ≠ v.net) :
    matchRev u.net v.net e ⟨v, u, e.reverse⟩ = true := by
  simp [matchRev, hne]

/-- `loopDel` deletes the first matching element and reports its index. -/
theorem loopDel_first (p : EulerEdge → Bool) (l1 : List EulerEdge)
    (x : EulerEdge) (l2 : List EulerEdge)
    (h1 : ∀ y ∈ l1, p y = false) (hx : p x = true) :
    loopDel p (l1 ++ x :: l2) = (l1 ++ l2, some l1.length) := by
  have hf := findIdx?_first p l1 x l2 h1 hx
  simp [loopDel, hf, eraseIdx_at_len]

/-- Computation of `remove_edge` when the removed logical edge is the first
match on each side and the two endpoint nets differ. -/
theorem removeEdge_spec (g : Graph) (u v : Node) (e : List Node)
    (lu1 lu2 lv1 lv2 : List EulerEdge)
    (hne : u.net ≠ v.net)
    (hu : graphGet g u.net = lu1 ++ ⟨u, v, e⟩ :: lu2)
    (hu1 : ∀ x ∈ lu1, matchFwd u.net v.net e x = false)
    (hv : graphGet g v.net = lv1 ++ ⟨v, u, e.reverse⟩ :: lv2)
    (hv1 : ∀ x ∈ lv1, matchRev u.net v.net e x = false) :
    removeEdge g u.net v.net e =
      (graphSet (graphSet g u.net (lu1 ++ lu2)) v.net (lv1 ++ lv2),
       some lv1.length) := by
  have hus : graphHasKey g u.net = true :=
    hasKey_of_graphGet_ne_nil (by rw [hu]; simp)
  have hvs : graphHasKey g v.net = true :=
    hasKey_of_graphGet_ne_nil (by rw [hv]; simp)
  have hLu : loopDel (matchFwd u.net v.net e) (graphGet g u.net)
      = (lu1 ++ lu2, some lu1.length) := by
    rw [hu]; exact loopDel_first _ _ _ _ hu1 (matchFwd_self u v e)
  have hLv : loopDel (matchRev u.net v.net e)
      (graphGet (graphSet g u.net (lu1 ++ lu2)) v.net)
      = (lv1 ++ lv2, some lv1.length) := by
    rw [graphGet_graphSet_ne hne, hv]
    exact loopDel_first _ _ _ _ hv1 (matchRev_self u v e hne)
  unfold removeEdge
  rw [graphEnsure_of_hasKey hus, graphEnsure_of_hasKey hvs]
  simp only [hLu]
  simp only [hLv]
  simp [Option.orElse]

/-- C2 amended, part of the development: `remove_edge` followed by `add_edge`
at the returned index restores `graph[v.net]` exactly, restores
`graph[u.net]` only up to permutation, and the returned index is the position
the mirrored half-edge occupied in `graph[v.net]`. -/
theorem removeEdge_addEdge_roundtrip (g : Graph) (u v : Node) (e : List Node)
    (lu1 lu2 lv1 lv2 : List EulerEdge)
    (hne : u.net ≠ v.net)
    (hu : graphGet g u.net = lu1 ++ ⟨u, v, e⟩ :: lu2)
    (hu1 : ∀ x ∈ lu1, matchFwd u.net v.net e x = false)
    (hv : graphGet g v.net = lv1 ++ ⟨v, u, e.reverse⟩ :: lv2)
    (hv1 : ∀ x ∈ lv1, matchRev u.net v.net e x = false) :
    (removeEdge g u.net v.net e).2 = some lv1.length ∧
    graphGet (addEdge (removeEdge g u.net v.net e).1 u v e (some lv1.length)) v.net
      = graphGet g v.net ∧
    (graphGet (addEdge (removeEdge g u.net v.net e).1 u v e (some lv1.length)) u.net).Perm
      (graphGet g u.net) := by
  have hus : graphHasKey g u.net = true :=
    hasKey_of_graphGet_ne_nil (by rw [hu]; simp)
  have hvs : graphHasKey g v.net = true :=
    hasKey_of_graphGet_ne_nil (by rw [hv]; simp)
  have hus : graphHasKey g u.net = true :=
    hasKey_of_graphGet_ne_nil (by rw [hu]; simp)
  have hvs : graphHasKey g v.net = true :=
    hasKey_of_graphGet_ne_nil (by rw [hv]; simp)
  have hrem := removeEdge_spec g u v e lu1 lu2 lv1 lv2 hne hu hu1 hv hv1
  rw [hrem]
  set g2 : Graph := graphSet (graphSet g u.net (lu1 ++ lu2)) v.net (lv1 ++ lv2) with hg2
  have hu2s : graphHasKey g2 u.net = true := by
    rw [hg2, hasKey_graphSet, hasKey_graphSet]; exact hus
  have hv2s : graphHasKey g2 v.net = true := by
    rw [hg2, hasKey_graphSet, hasKey_graphSet]; exact hvs
  have hget_u : graphGet g2 u.net = lu1 ++ lu2 := by
    rw [hg2, graphGet_graphSet_ne (Ne.symm hne), graphGet_graphSet_self hus]
  have hget_v : graphGet g2 v.net = lv1 ++ lv2 := by
    rw [hg2, graphGet_graphSet_self]
    rw [hasKey_graphSet]; exact hvs
  have haddu : graphHasKey (graphSet g2 u.net
      (pyInsert (graphGet g2 u.net) lv1.length ⟨u, v, e⟩)) v.net = true := by
    rw [hasKey_graphSet]; exact hv2s
  refine ⟨rfl, ?_, ?_⟩
  · show graphGet (addEdge g2 u v e (some lv1.length)) v.net = graphGet g v.net
    unfold addEdge
    rw [graphEnsure_of_hasKey hu2s, graphEnsure_of_hasKey hv2s]
    simp only
    rw [graphGet_graphSet_self haddu, graphGet_graphSet_ne hne, hget_v,
      pyInsert_at_len, hv]
  · show (graphGet (addEdge g2 u v e (some lv1.length)) u.net).Perm (graphGet g u.net)
    unfold addEdge
    rw [graphEnsure_of_hasKey hu2s, graphEnsure_of_hasKey hv2s]
    simp only
    rw [graphGet_graphSet_ne (Ne.symm hne),
      graphGet_graphSet_self hu2s, hget_u, hu]
    exact (pyInsert_perm _ _ _).trans List.perm_middle.symm

end DevGen

namespace DevGen

/-- Interior list of the first concrete edge used for claim C2. -/
def c2p : List Node := [⟨"gate", "p", 0, 0, 2⟩]

/-- Interior list of the removed concrete edge used for claim C2. -/
def c2q : List Node := [⟨"gate", "q", 0, 0, 5⟩]

/-- Interior list of the third concrete edge used for claim C2. -/
def c2r : List Node := [⟨"gate", "r", 0, 0, 8⟩]

/-- The `u` endpoint of the removed concrete edge of claim C2. -/
def c2A : Node := ⟨"diff", "A", 0, 0, 3⟩

/-- The `v` endpoint of the removed concrete edge of claim C2. -/
def c2B : Node := ⟨"diff", "B", 0, 0, 4⟩

/-- Concrete multigraph for claim C2: edges A-C, A-B, D-B in that insertion
order, so the A-B edge sits at index 1 of `graph["A"]` but its mirror sits at
index 0 of `graph["B"]`. -/
def c2g : Graph :=
  mkGraph [(⟨"diff", "A", 0, 0, 0⟩, ⟨"diff", "C", 0, 0, 1⟩, c2p),
           (c2A, c2B, c2q),
           (⟨"diff", "D", 0, 0, 6⟩, ⟨"diff", "B", 0, 0, 7⟩, c2r)]

/-- C2 counterexample: `remove_edge("A","B",q)` returns 0, the index of the
mirrored half-edge in `graph["B"]`, even though the removed half-edge sat at
index 1 of `graph["A"]`; re-adding at the returned index therefore does not
restore `graph["A"]` to its pre-removal contents. -/
theorem c2_roundtrip_counterexample :
    (removeEdge c2g "A" "B" c2q).2 = some 0 ∧
    (graphGet c2g "A").findIdx? (matchFwd "A" "B" c2q) = some 1 ∧
    graphGet (addEdge (removeEdge c2g "A" "B" c2q).1 c2A c2B c2q (some 0)) "A"
      ≠ graphGet c2g "A" := by decide

/-- Witness for the amended C2 theorem at the concrete graph `c2g`. -/
theorem removeEdge_addEdge_roundtrip_witness :
    (removeEdge c2g "A" "B" c2q).2 = some 0 ∧
    graphGet (addEdge (removeEdge c2g "A" "B" c2q).1 c2A c2B c2q (some 0)) "B"
      = graphGet c2g "B" ∧
    (graphGet (addEdge (removeEdge c2g "A" "B" c2q).1 c2A c2B c2q (some 0)) "A").Perm
      (graphGet c2g "A") :=
  removeEdge_addEdge_roundtrip c2g c2A c2B c2q
    [⟨⟨"diff", "A", 0, 0, 0⟩, ⟨"diff", "C", 0, 0, 1⟩, c2p⟩] []
    [] [⟨⟨"diff", "B", 0, 0, 7⟩, ⟨"diff", "D", 0, 0, 6⟩, c2r.reverse⟩]
    (by decide) (by decide) (by decide) (by decide) (by decide)

/-- C3 amended: `initial_node` fails (the Python code raises `IndexError`)
exactly when no net has an odd number of half-edges and the first net in
insertion order has none left; in every other situation the restart inside
`fleury_algorithm` succeeds in choosing a start vertex. -/
theorem initialNode_none_iff (g : Graph) :
    initialNode g = none ↔
      ((∀ p ∈ g, ¬ Odd p.2.length) ∧ (∀ p ∈ g.head?, p.2 = [])) := by
  unfold initialNode
  cases hf : g.find? (fun p => p.2.length % 2 == 1) with
  | some p =>
    have hp := List.find?_some hf
    have hmem : p ∈ g := List.mem_of_find?_eq_some hf
    have hodd : Odd p.2.length := by
      rw [Nat.odd_iff]; simpa using hp
    obtain ⟨k, l⟩ := p
    cases l with
    | nil => exact absurd hodd (by simp)
    | cons e0 rest =>
      simp only
      constructor
      · intro h; cases h
      · rintro ⟨hall, -⟩
        exact absurd hodd (hall _ hmem)
  | none =>
    have hall : ∀ p ∈ g, ¬ Odd p.2.length := by
      intro p hp
      have h2 := List.find?_eq_none.mp hf p hp
      rw [Nat.odd_iff]
      simpa using h2
    cases g with
    | nil =>
      simp only
      constructor
      · intro _
        exact ⟨by intro p hp; simp at hp, by intro p hp; simp at hp⟩
      · intro _; trivial
    | cons q rest =>
      obtain ⟨k, l⟩ := q
      cases l with
      | nil =>
        simp only
        constructor
        · intro _
          refine ⟨hall, ?_⟩
          intro p hp
          simp only [List.head?_cons, Option.mem_def, Option.some.injEq] at hp
          rw [← hp]
        · intro _; trivial
      | cons e0 r =>
        simp only
        constructor
        · intro h; cases h
        · rintro ⟨-, hh⟩
          have hcon := hh (k, e0 :: r) (by simp)
          simp at hcon

/-- Edge list of two disjoint triangles A-B-C and D-E-F (all degrees even). -/
def c3edges : List (Node × Node × List Node) :=
  [(⟨"diff", "A", 0, 0, 0⟩, ⟨"diff", "B", 0, 0, 1⟩, [⟨"gate", "g0", 0, 0, 2⟩]),
   (⟨"diff", "B", 0, 0, 3⟩, ⟨"diff", "C", 0, 0, 4⟩, [⟨"gate", "g1", 0, 0, 5⟩]),
   (⟨"diff", "C", 0, 0, 6⟩, ⟨"diff", "A", 0, 0, 7⟩, [⟨"gate", "g2", 0, 0, 8⟩]),
   (⟨"diff", "D", 0, 0, 9⟩, ⟨"diff", "E", 0, 0, 10⟩, [⟨"gate", "g3", 0, 0, 11⟩]),
   (⟨"diff", "E", 0, 0, 12⟩, ⟨"diff", "F", 0, 0, 13⟩, [⟨"gate", "g4", 0, 0, 14⟩]),
   (⟨"diff", "F", 0, 0, 15⟩, ⟨"diff", "D", 0, 0, 16⟩, [⟨"gate", "g5", 0, 0, 17⟩])]

/-- C3 counterexample: on the two-triangle multigraph the first pass consumes
only the first triangle; at the restart no remaining net has odd degree and
the first net A is exhausted, so `initial_node` indexes an empty list and
`fleury_algorithm` crashes with `IndexError` instead of returning. -/
theorem c3_restart_counterexample :
    fleuryAlgorithm 100 (mkGraph c3edges) true = .error .indexError := by rfl

end DevGen

namespace DevGen

/-- Token of a 2D pattern: a class index or the dummy sentinel `'d'`. -/
inductive PatTok where
  | cls (i : ℕ)
  | dmy
deriving DecidableEq, Repr

/-- `simple_1d_clustered_pattern`: all copies of class 0, then class 1, ...
(`range(c)` is empty for non-positive `c`, hence `Int.toNat`). -/
def simple1dClusteredPattern (inst : List ℤ) : List ℕ :=
  inst.enum.flatMap fun p => List.replicate p.2.toNat p.1

/-- One outer round of `simple_1d_interdigitated_pattern`: scan the classes in
order, emit each class with a positive remaining count once, decrementing. -/
def idRound : List (ℕ × ℤ) → List (ℕ × ℤ) × List ℕ
  | [] => ([], [])
  | (i, c) :: rest =>
    let r := idRound rest
    if 0 < c then ((i, c - 1) :: r.1, i :: r.2) else ((i, c) :: r.1, r.2)

/-- The `for _ in range(max_count)` loop of the interdigitated pattern. -/
def idRounds : ℕ → List (ℕ × ℤ) → List ℕ
  | 0, _ => []
  | r+1, counts =>
    let step := idRound counts
    step.2 ++ idRounds r step.1

/-- `simple_1d_interdigitated_pattern` (the Python code raises on an empty
input through `max`; the model returns the empty pattern there, a case no
claim touches). -/
def simple1dInterdigitatedPattern (inst : List ℤ) : List ℕ :=
  idRounds ((inst.max?.getD 0).toNat) inst.enum

/-- The odd-extraction loop of `simple_1d_common_centroid_pattern` (method 2
of the source): decrement each odd count by one and collect one token per odd
class into the odd pool, preserving class order. -/
def ccSplitOdd : List (ℕ × ℤ) → List (ℕ × ℤ) × List (ℕ × ℤ)
  | [] => ([], [])
  | (i, c) :: rest =>
    if c % 2 ≠ 0 then
      ((i, c - 1) :: (ccSplitOdd rest).1, (i, 1) :: (ccSplitOdd rest).2)
    else
      ((i, c) :: (ccSplitOdd rest).1, (ccSplitOdd rest).2)

/-- The token stream emitted by a `for i in counts: for _ in range(counts[i])`
nest, in emission order. -/
def ccTokens (counts : List (ℕ × ℤ)) : List ℕ :=
  counts.flatMap fun p => List.replicate p.2.toNat p.1

/-- Alternating distribution into the left and right buffers; the boolean is
the `post` variable (`true` = next token goes left). -/
def ccDistribute : List ℕ → Bool → List ℕ × List ℕ
  | [], _ => ([], [])
  | x :: xs, true => ((x :: (ccDistribute xs false).1), (ccDistribute xs false).2)
  | x :: xs, false => ((ccDistribute xs true).1, (x :: (ccDistribute xs true).2))

/-- `simple_1d_common_centroid_pattern`: distribute the evened counts
alternately left/right, then the odd pool (with `post` reset to left), and
return `left ++ reverse right`. -/
def simple1dCommonCentroidPattern (inst : List ℤ) : List ℕ :=
  ((ccDistribute (ccTokens (ccSplitOdd inst.enum).1) true).1 ++
   (ccDistribute (ccTokens (ccSplitOdd inst.enum).2) true).1) ++
  ((ccDistribute (ccTokens (ccSplitOdd inst.enum).1) true).2 ++
   (ccDistribute (ccTokens (ccSplitOdd inst.enum).2) true).2).reverse

/-- The row-slicing loop of `simple_2d_clustered_pattern`: `row` times pop
`col` leading tokens; popping from an exhausted list raises `IndexError`. -/
def takeRows : ℕ → ℕ → List PatTok → Except PyErr (List (List PatTok))
  | 0, _, _ => .ok []
  | r+1, col, l =>
    if col ≤ l.length then
      match takeRows r col (l.drop col) with
      | .error err => .error err
      | .ok rest => .ok (l.take col :: rest)
    else .error .indexError

/-- `simple_2d_clustered_pattern`: pad with dummy tokens to a multiple of
`row`, lay the classes out 1D, and slice into `row` rows of `col`. -/
def simple2dClusteredPattern (inst : List ℤ) (row : ℤ) :
    Except PyErr (List (List PatTok)) :=
  let s := inst.sum
  let dummy : ℤ := if s.emod row ≠ 0 then row - s.emod row else 0
  let pattern1d : List PatTok :=
    (inst.enum.flatMap fun p => List.replicate p.2.toNat (PatTok.cls p.1))
      ++ List.replicate dummy.toNat PatTok.dmy
  let col : ℤ := if 0 < dummy then s.ediv row + 1 else s.ediv row
  takeRows row.toNat col.toNat pattern1d

/-- One row literal of `custom_2d_pattern`: digits become class indices, `d`
becomes the dummy token, anything else raises `ValueError` (modelled as
`typeError`). -/
def parseCustomRow (s : List Char) : Except PyErr (List PatTok) :=
  match s with
  | [] => .ok []
  | c :: rest =>
    if c = 'd' then
      match parseCustomRow rest with
      | .error err => .error err
      | .ok l => .ok (PatTok.dmy :: l)
    else if c.isDigit then
      match parseCustomRow rest with
      | .error err => .error err
      | .ok l => .ok (PatTok.cls (c.toNat - '0'.toNat) :: l)
    else .error .typeError

/-- `custom_2d_pattern`: strip the surrounding brackets, split on commas, and
parse each row literal character by character. -/
def custom2DPattern (s : String) : Except PyErr (List (List PatTok)) :=
  let stripped := ((s.toList.dropWhile (fun c => c = '[' ∨ c = ']')).reverse.dropWhile
    (fun c => c = '[' ∨ c = ']')).reverse
  let rows := (String.mk stripped).splitOn ","
  rows.foldr (fun r acc =>
    match parseCustomRow r.toList, acc with
    | .error err, _ => .error err
    | _, .error err => .error err
    | .ok l, .ok ls => .ok (l :: ls)) (.ok [])

end DevGen

namespace DevGen

/-- Two consecutive equal tokens go one to each buffer, whatever the phase. -/
theorem ccDistribute_two (x : ℕ) (xs : List ℕ) (b : Bool) :
    ccDistribute (x :: x :: xs) b =
      (x :: (ccDistribute xs b).1, x :: (ccDistribute xs b).2) := by
  cases b <;> simp [ccDistribute]

/-- An even run of one class splits evenly between the two buffers and leaves
the phase unchanged. -/
theorem ccDistribute_replicate_even (m : ℕ) (x : ℕ) (xs : List ℕ) (b : Bool) :
    ccDistribute (List.replicate (2 * m) x ++ xs) b =
      (List.replicate m x ++ (ccDistribute xs b).1,
       List.replicate m x ++ (ccDistribute xs b).2) := by
  induction m with
  | zero => simp
  | succ n ih =>
    have h2 : 2 * (n + 1) = (2 * n) + 1 + 1 := by ring
    rw [h2, List.replicate_succ, List.replicate_succ, List.cons_append,
      List.cons_append, ccDistribute_two, ih, List.replicate_succ]
    simp

/-- A count with zero remainder mod 2 yields an even `toNat`. -/
theorem toNat_even_of_emod (c : ℤ) (h : c % 2 = 0) : ∃ m, c.toNat = 2 * m := by
  rcases le_or_lt 0 c with hc | hc
  · obtain ⟨k, hk⟩ := Int.dvd_of_emod_eq_zero h
    refine ⟨k.toNat, ?_⟩
    have hk' : 0 ≤ k := by nlinarith
    omega
  · exact ⟨0, by omega⟩

/-- Unfolding of the odd-extraction loop at an odd-count class. -/
theorem ccSplitOdd_cons_odd (i : ℕ) (c : ℤ) (rest : List (ℕ × ℤ))
    (h : c % 2 ≠ 0) :
    ccSplitOdd ((i, c) :: rest) =
      ((i, c - 1) :: (ccSplitOdd rest).1, (i, 1) :: (ccSplitOdd rest).2) := by
  simp [ccSplitOdd, h]

/-- Unfolding of the odd-extraction loop at an even-count class. -/
theorem ccSplitOdd_cons_even (i : ℕ) (c : ℤ) (rest : List (ℕ × ℤ))
    (h : c % 2 = 0) :
    ccSplitOdd ((i, c) :: rest) =
      ((i, c) :: (ccSplitOdd rest).1, (ccSplitOdd rest).2) := by
  simp [ccSplitOdd, h]

/-- Every class count left in the even pool after odd extraction is even. -/
theorem ccSplitOdd_fst_even (cs : List (ℕ × ℤ)) :
    ∀ p ∈ (ccSplitOdd cs).1, p.2 % 2 = 0 := by
  induction cs with
  | nil => intro p hp; cases hp
  | cons q rest ih =>
    obtain ⟨i, c⟩ := q
    intro p hp
    by_cases h0 : c % 2 = 0
    · rw [ccSplitOdd_cons_even i c rest h0] at hp
      rcases List.mem_cons.mp hp with hp | hp
      · rw [hp]; exact h0
      · exact ih p hp
    · rw [ccSplitOdd_cons_odd i c rest h0] at hp
      rcases List.mem_cons.mp hp with hp | hp
      · rw [hp]; dsimp only; omega
      · exact ih p hp

/-- Every entry of the odd pool carries count one. -/
theorem ccSplitOdd_snd_one (cs : List (ℕ × ℤ)) :
    ∀ p ∈ (ccSplitOdd cs).2, p.2 = 1 := by
  induction cs with
  | nil => intro p hp; cases hp
  | cons q rest ih =>
    obtain ⟨i, c⟩ := q
    intro p hp
    by_cases h0 : c % 2 = 0
    · rw [ccSplitOdd_cons_even i c rest h0] at hp
      exact ih p hp
    · rw [ccSplitOdd_cons_odd i c rest h0] at hp
      rcases List.mem_cons.mp hp with hp | hp
      · rw [hp]
      · exact ih p hp

/-- The odd pool has one entry per class whose count is odd. -/
theorem ccSplitOdd_snd_length (cs : List (ℕ × ℤ)) :
    (ccSplitOdd cs).2.length = (cs.filter fun p => p.2 % 2 ≠ 0).length := by
  induction cs with
  | nil => rfl
  | cons q rest ih =>
    obtain ⟨i, c⟩ := q
    by_cases h0 : c % 2 = 0
    · rw [ccSplitOdd_cons_even i c rest h0,
        List.filter_cons_of_neg (by simpa using h0)]
      exact ih
    · rw [ccSplitOdd_cons_odd i c rest h0,
        List.filter_cons_of_pos (by simpa using h0)]
      simp [ih]

/-- Filtering the enumerated list by a predicate on the value has the same
length as filtering the list itself. -/
theorem enumFrom_filter_length (q : ℤ → Bool) (l : List ℤ) :
    ∀ n, ((l.enumFrom n).filter fun p => q p.2).length = (l.filter q).length := by
  induction l with
  | nil => intro n; simp
  | cons a rest ih =>
    intro n
    by_cases hq : q a = true
    · rw [List.enumFrom, List.filter_cons_of_pos (by simpa using hq),
        List.filter_cons_of_pos hq]
      simp [ih]
    · simp only [Bool.not_eq_true] at hq
      rw [List.enumFrom, List.filter_cons_of_neg (by simpa using hq),
        List.filter_cons_of_neg (by simpa using hq)]
      exact ih (n + 1)

/-- Distributing the token stream of all-even counts fills both buffers with
the same multiset. -/
theorem ccDistribute_tokens_even (cs : List (ℕ × ℤ)) (b : Bool)
    (h : ∀ p ∈ cs, p.2 % 2 = 0) :
    ((ccDistribute (ccTokens cs) b).1 : Multiset ℕ) =
      ((ccDistribute (ccTokens cs) b).2 : Multiset ℕ) := by
  induction cs with
  | nil => simp [ccTokens, ccDistribute]
  | cons q rest ih =>
    obtain ⟨i, c⟩ := q
    obtain ⟨m, hm⟩ := toNat_even_of_emod c (h (i, c) (by simp))
    have htok : ccTokens ((i, c) :: rest) =
        List.replicate (2 * m) i ++ ccTokens rest := by
      simp [ccTokens, hm]
    rw [htok, ccDistribute_replicate_even]
    have ih' := ih (fun p hp => h p (by simp [hp]))
    simp only [← Multiset.coe_add]
    simp [Multiset.coe_add, ih']

end DevGen

namespace DevGen

/-- Halves of `left ++ extra ++ reverse right` carry equal multisets when the
two buffers do and at most one extra token sits in the middle. -/
theorem take_drop_halves (l1 r1 ex : List ℕ)
    (hm : (l1 : Multiset ℕ) = (r1 : Multiset ℕ)) (hex : ex.length ≤ 1) :
    (((l1 ++ ex) ++ r1.reverse).take
      (((l1 ++ ex) ++ r1.reverse).length / 2) : Multiset ℕ) =
    (((l1 ++ ex) ++ r1.reverse).drop
      (((l1 ++ ex) ++ r1.reverse).length -
        ((l1 ++ ex) ++ r1.reverse).length / 2) : Multiset ℕ) := by
  have hlen : l1.length = r1.length := by
    have hc := congrArg Multiset.card hm
    simpa using hc
  rcases ex with _ | ⟨x, ex0⟩
  · have hn : ((l1 ++ ([] : List ℕ)) ++ r1.reverse).length = 2 * l1.length := by
      simp; omega
    rw [hn]
    have h2 : 2 * l1.length / 2 = l1.length := by omega
    rw [h2]
    have h3 : 2 * l1.length - l1.length = l1.length := by omega
    rw [h3, List.append_nil, List.take_left, List.drop_left]
    rw [Multiset.coe_reverse]
    exact hm
  · cases ex0 with
    | cons y t => simp at hex
    | nil =>
      have hn : ((l1 ++ [x]) ++ r1.reverse).length = 2 * l1.length + 1 := by
        simp; omega
      rw [hn]
      have h2 : (2 * l1.length + 1) / 2 = l1.length := by omega
      rw [h2]
      have h3 : 2 * l1.length + 1 - l1.length = l1.length + 1 := by omega
      rw [h3]
      have htake : ((l1 ++ [x]) ++ r1.reverse).take l1.length = l1 := by
        rw [List.append_assoc, List.take_left]
      have hdrop : ((l1 ++ [x]) ++ r1.reverse).drop (l1.length + 1) = r1.reverse := by
        have hlx : (l1 ++ [x]).length = l1.length + 1 := by simp
        rw [← hlx, List.drop_left]
      rw [htake, hdrop, Multiset.coe_reverse]
      exact hm

/-- C9 amended: for every count vector of positive integers with at most one
odd count, the 1D common-centroid pattern is palindromic in class-multiset:
the multiset of the left half of the output equals the multiset of the right
half.  (With two or more odd counts the odd pool alternates distinct classes
between the two halves and the property fails.) -/
theorem cc_pattern_halves_multiset (inst : List ℤ)
    (hpos : ∀ c ∈ inst, 0 < c)
    (hodd : (inst.filter fun c => c % 2 ≠ 0).length ≤ 1) :
    ((simple1dCommonCentroidPattern inst).take
      ((simple1dCommonCentroidPattern inst).length / 2) : Multiset ℕ) =
    ((simple1dCommonCentroidPattern inst).drop
      ((simple1dCommonCentroidPattern inst).length -
        (simple1dCommonCentroidPattern inst).length / 2) : Multiset ℕ) := by
  have hm := ccDistribute_tokens_even (ccSplitOdd inst.enum).1 true
    (ccSplitOdd_fst_even inst.enum)
  have hsl : (ccSplitOdd inst.enum).2.length ≤ 1 := by
    rw [ccSplitOdd_snd_length]
    calc ((inst.enum.filter fun p => p.2 % 2 ≠ 0)).length
        = (inst.filter fun c => c % 2 ≠ 0).length :=
          enumFrom_filter_length (fun c => decide (c % 2 ≠ 0)) inst 0
      _ ≤ 1 := hodd
  have hones := ccSplitOdd_snd_one inst.enum
  rcases hsnd : (ccSplitOdd inst.enum).2 with _ | ⟨⟨i, c⟩, rest⟩
  · have hpat : simple1dCommonCentroidPattern inst =
        ((ccDistribute (ccTokens (ccSplitOdd inst.enum).1) true).1 ++ []) ++
        ((ccDistribute (ccTokens (ccSplitOdd inst.enum).1) true).2 ++ []).reverse := by
      unfold simple1dCommonCentroidPattern
      rw [hsnd]
      simp [ccTokens, ccDistribute]
    rw [hpat]
    have hm' : (((ccDistribute (ccTokens (ccSplitOdd inst.enum).1) true).2 ++
        ([] : List ℕ)) : Multiset ℕ) =
        ((ccDistribute (ccTokens (ccSplitOdd inst.enum).1) true).2 : Multiset ℕ) := by
      simp
    exact take_drop_halves _ _ _ (by simpa using hm) (by simp)
  · have hrest : rest = [] := by
      have := hsl
      rw [hsnd] at this
      cases rest with
      | nil => rfl
      | cons y t => simp at this
    have hc1 : c = 1 := by
      have := hones (i, c) (by rw [hsnd]; simp)
      simpa using this
    have hpat : simple1dCommonCentroidPattern inst =
        (((ccDistribute (ccTokens (ccSplitOdd inst.enum).1) true).1 ++ [i]) ++
        ((ccDistribute (ccTokens (ccSplitOdd inst.enum).1) true).2 ++ []).reverse) := by
      unfold simple1dCommonCentroidPattern
      rw [hsnd, hrest, hc1]
      simp [ccTokens, ccDistribute]
    rw [hpat]
    exact take_drop_halves _ _ _ (by simpa using hm) (by simp)

/-- C9 counterexample: for the positive count vector `[1, 1]` the pattern is
`[0, 1]`, whose halves are `[0]` and `[1]` with different class multisets. -/
theorem cc_pattern_counterexample :
    simple1dCommonCentroidPattern [1, 1] = [0, 1] ∧
    ¬ (((simple1dCommonCentroidPattern [1, 1]).take
        ((simple1dCommonCentroidPattern [1, 1]).length / 2) : Multiset ℕ) =
      ((simple1dCommonCentroidPattern [1, 1]).drop
        ((simple1dCommonCentroidPattern [1, 1]).length -
          (simple1dCommonCentroidPattern [1, 1]).length / 2) : Multiset ℕ)) := by
  constructor
  · rfl
  · decide

/-- Witness for the amended C9 theorem at the concrete counts `[2, 4, 2]`. -/
theorem cc_pattern_halves_multiset_witness :
    (∀ c ∈ ([2, 4, 2] : List ℤ), 0 < c) ∧
    (([2, 4, 2] : List ℤ).filter (fun c => c % 2 ≠ 0)).length ≤ 1 ∧
    ((simple1dCommonCentroidPattern [2, 4, 2]).take
      ((simple1dCommonCentroidPattern [2, 4, 2]).length / 2) : Multiset ℕ) =
    ((simple1dCommonCentroidPattern [2, 4, 2]).drop
      ((simple1dCommonCentroidPattern [2, 4, 2]).length -
        (simple1dCommonCentroidPattern [2, 4, 2]).length / 2) : Multiset ℕ) :=
  ⟨by decide, by decide,
    cc_pattern_halves_multiset [2, 4, 2] (by decide) (by decide)⟩

end DevGen

namespace DevGen

/-- One possible iteration order of Python `set(l)`: the distinct values of
`l`, each exactly once, in an arbitrary order.  CPython iterates a set in
hash-table slot order, which depends on the values' hashes and collision
probing (for instance `set([8, 0])` iterates as `[8, 0]`), so the embedding
keeps the enumeration order abstract and theorems quantify over every
duplicate-free enumeration. -/
def SetEnum (l s : List ℤ) : Prop :=
  s.Nodup ∧ (∀ x ∈ s, x ∈ l) ∧ (∀ x ∈ l, x ∈ s)

instance (l s : List ℤ) : Decidable (SetEnum l s) := by
  unfold SetEnum
  infer_instance

/-- The head of a nonempty list is a member. -/
theorem headD_mem (l : List ℤ) (h : l ≠ []) : l.headD 0 ∈ l := by
  cases l with
  | nil => exact absurd rfl h
  | cons a t => simp

/-- A set enumeration of a constant list is the one-element list. -/
theorem setEnum_eq_singleton (l s : List ℤ) (v : ℤ) (hse : SetEnum l s)
    (hv : v ∈ l) (hall : ∀ x ∈ l, x = v) : s = [v] := by
  obtain ⟨hnd, hsl, hls⟩ := hse
  have hvs : v ∈ s := hls v hv
  have hall_s : ∀ x ∈ s, x = v := fun x hx => hall x (hsl x hx)
  cases s with
  | nil => cases hvs
  | cons a t =>
    have ha : a = v := hall_s a (List.mem_cons_self a t)
    subst ha
    rw [List.nodup_cons] at hnd
    cases t with
    | nil => rfl
    | cons b u =>
      have hb : b = a := hall_s b (by simp)
      exact absurd (by simp [← hb]) hnd.1

/-- Conversely, a one-element enumeration forces the list constant. -/
theorem setEnum_singleton_uniform (l : List ℤ) (a : ℤ)
    (hse : SetEnum l [a]) : l ≠ [] ∧ ∀ x ∈ l, x = a := by
  obtain ⟨-, hsl, hls⟩ := hse
  constructor
  · intro hc
    subst hc
    exact absurd (hsl a (by simp)) (by simp)
  · intro x hx
    simpa using hls x hx

/-- Two distinct list values make the enumeration longer than one. -/
theorem setEnum_one_lt_length (l s : List ℤ) (x y : ℤ) (hse : SetEnum l s)
    (hx : x ∈ l) (hy : y ∈ l) (hxy : x ≠ y) : 1 < s.length := by
  obtain ⟨-, -, hls⟩ := hse
  have hxs := hls x hx
  have hys := hls y hy
  cases s with
  | nil => cases hxs
  | cons a t =>
    cases t with
    | nil =>
      simp only [List.mem_singleton] at hxs hys
      exact absurd (hxs.trans hys.symm) hxy
    | cons b u =>
      simp only [List.length_cons]
      omega

end DevGen

namespace DevGen

/-- One transistor record of a group: parsed `finger`/`multiplier` integers,
`length`/`width` in user units, and the terminal net map. -/
structure Inst where
  finger : ℤ
  multiplier : ℤ
  length : PyF
  width : PyF
  source : String
  gate : String
  drain : String
  bulk : String
deriving DecidableEq, Repr

/-- A MOSFET group record as consumed by the topology builder: kind, ordered
instances, and the recognized constraint keys. -/
structure Group where
  type : String
  inst : List Inst
  mfSym : String
  mpSym : String
  mpRow : ℤ
  tap : String
deriving DecidableEq, Repr

/-- `all_finger`, collected by `MOSFET.update_info` (the `int(...)` and
engineering-notation re-parsing is the identity on already-parsed values). -/
def allFinger (g : Group) : List ℤ := g.inst.map (·.finger)

/-- `all_multiplier`, collected by `MOSFET.update_info`. -/
def allMultiplier (g : Group) : List ℤ := g.inst.map (·.multiplier)

/-- The `for i in set(all_finger)` loop of `get_topology_condition` in the
more-than-one-finger-value branch: first value above one gives condition 2,
first value below one gives condition 3, falling out gives `None`. -/
def scanFingersCond : List ℤ → Option ℕ
  | [] => none
  | i :: rest =>
    if 1 < i then some 2 else if i < 1 then some 3 else scanFingersCond rest

/-- The `for i in set(all_multiplier)` loop of `get_topology_condition` in the
non-uniform-multiplier branch, followed by the `return 3` after the loop;
`funi1` is the precomputed `len(set(all_finger)) == 1 and all_finger[0] == 1`. -/
def scanMultCond (funi1 : Bool) : List ℤ → Option ℕ
  | [] => some 3
  | i :: rest =>
    if 1 < i then (if funi1 then some 1 else scanMultCond funi1 rest)
    else if i < 1 then some 3
    else scanMultCond funi1 rest

/-- `MOSFET.get_topology_condition`: classify the group by its finger and
multiplier vectors; `none` models the implicit Python `None` fall-through.
`sf` and `sm` are the iteration orders of `set(all_finger)` and
`set(all_multiplier)` (see `SetEnum`): CPython's order is hash-table
dependent, so it is passed in rather than fixed by the model. -/
def getTopologyCondition (sf sm : List ℤ) (f m : List ℤ) : Option ℕ :=
  if sm.length = 1 then
    if m.headD 0 = 1 then some 0
    else if 1 < m.headD 0 then
      (if sf.length = 1 then
        (if f.headD 0 = 1 then some 1
         else if 1 < f.headD 0 then some 2
         else if f.headD 0 < 1 then some 3
         else none)
       else if 1 < sf.length then scanFingersCond sf
       else none)
    else if m.headD 0 < 1 then some 3
    else none
  else if 1 < sm.length then
    scanMultCond (sf.length = 1 && f.headD 0 == 1) sm
  else none

/-- The `re.match("\x5b.+\x5d", s)` test of `get_topology_order`: the string
starts with an opening bracket and closes one after at least one further
character. -/
def matchesCustom (s : String) : Bool :=
  s.startsWith "[" && (s.drop 2).contains ']'

/-- Entry of a multi-finger order: a plain instance index, or a whole row
when the custom-2D pattern was (mis)used for `mf_sym`. -/
inductive MOrd where
  | num (i : ℕ)
  | row (r : List PatTok)
deriving DecidableEq, Repr

/-- `get_topology_order("mf")`. -/
def getTopologyOrderMf (g : Group) : Except PyErr (List MOrd) :=
  if g.mfSym = "None" then
    .ok ((simple1dClusteredPattern (allFinger g)).map MOrd.num)
  else if g.mfSym = "ID" then
    .ok ((simple1dInterdigitatedPattern (allFinger g)).map MOrd.num)
  else if g.mfSym = "CC" then
    .ok ((simple1dCommonCentroidPattern (allFinger g)).map MOrd.num)
  else if matchesCustom g.mfSym then
    match custom2DPattern g.mfSym with
    | .error err => .error err
    | .ok rows => .ok (rows.map MOrd.row)
  else .ok []

/-- `get_topology_order("mp")`. -/
def getTopologyOrderMp (g : Group) : Except PyErr (List (List PatTok)) :=
  if g.mpSym = "None" ∧ g.mpRow = 1 then
    .ok [(simple1dClusteredPattern (allMultiplier g)).map PatTok.cls]
  else if g.mpSym = "ID" then
    .ok [(simple1dInterdigitatedPattern (allMultiplier g)).map PatTok.cls]
  else if g.mpSym = "CC" then
    .ok [(simple1dCommonCentroidPattern (allMultiplier g)).map PatTok.cls]
  else if g.mpSym = "None" ∧ 1 < g.mpRow then
    simple2dClusteredPattern (allMultiplier g) g.mpRow
  else if matchesCustom g.mpSym then custom2DPattern g.mpSym
  else .ok []

/-- The edge-insertion loop of `generate_multi_finger_topology`: for each
ordered index build fresh source/gate/drain terminal records (fresh `uid`s
model fresh Python objects) and `add_edge` them.  A row entry (custom-2D
misuse) is a `TypeError`, an out-of-range index an `IndexError`, and
`width / finger` with a zero finger a `ZeroDivisionError`. -/
def buildMfGraph (db : PyF) (insts : List Inst) :
    List MOrd → ℕ → Graph → Except PyErr Graph
  | [], _, g => .ok g
  | MOrd.row _ :: _, _, _ => .error .typeError
  | MOrd.num i :: rest, p, g =>
    match insts[i]? with
    | none => .error .indexError
    | some inst =>
      if inst.finger = 0 then .error .zeroDivError
      else
        let len := inst.length / db
        let wid := inst.width / db / PyF.ofInt inst.finger
        let source : Node := ⟨"diff", inst.source, len, wid, 3 * p⟩
        let gate : Node := ⟨"gate", inst.gate, len, wid, 3 * p + 1⟩
        let drain : Node := ⟨"diff", inst.drain, len, wid, 3 * p + 2⟩
        buildMfGraph db insts rest (p + 1) (addEdge g source drain [gate] none)

/-- `generate_multi_finger_topology`. -/
def generateMultiFinger (fuel : ℕ) (db : PyF) (g : Group) :
    Except PyErr (List (List Node)) :=
  match getTopologyOrderMf g with
  | .error err => .error err
  | .ok ord =>
    match buildMfGraph db g.inst ord 0 [] with
    | .error err => .error err
    | .ok graph =>
      match fleuryAlgorithm fuel graph true with
      | .error err => .error err
      | .ok nodes => .ok [nodes]

/-- The edge-insertion loop of `generate_multiplier_topology` for one row;
a dummy token indexes the instance list with `'d'`, a `TypeError`. -/
def buildMpGraph (db : PyF) (insts : List Inst) :
    List PatTok → ℕ → Graph → Except PyErr Graph
  | [], _, g => .ok g
  | PatTok.dmy :: _, _, _ => .error .typeError
  | PatTok.cls i :: rest, p, g =>
    match insts[i]? with
    | none => .error .indexError
    | some inst =>
      if inst.finger = 0 then .error .zeroDivError
      else
        let len := inst.length / db
        let wid := inst.width / db / PyF.ofInt inst.finger
        let source : Node := ⟨"diff", inst.source, len, wid, 3 * p⟩
        let gate : Node := ⟨"gate", inst.gate, len, wid, 3 * p + 1⟩
        let drain : Node := ⟨"diff", inst.drain, len, wid, 3 * p + 2⟩
        buildMpGraph db insts rest (p + 1) (addEdge g source drain [gate] none)

/-- `generate_multiplier_topology`: one fresh multigraph and one non-finger
Euler trail per multiplier row. -/
def generateMultiplierRows (fuel : ℕ) (db : PyF) (g : Group) :
    List (List PatTok) → Except PyErr (List (List Node))
  | [] => .ok []
  | row :: rest =>
    match buildMpGraph db g.inst row 0 [] with
    | .error err => .error err
    | .ok graph =>
      match fleuryAlgorithm fuel graph false with
      | .error err => .error err
      | .ok nodes =>
        match generateMultiplierRows fuel db g rest with
        | .error err => .error err
        | .ok rows => .ok (nodes :: rows)

/-- `generate_multiplier_topology` entry point. -/
def generateMultiplier (fuel : ℕ) (db : PyF) (g : Group) :
    Except PyErr (List (List Node)) :=
  match getTopologyOrderMp g with
  | .error err => .error err
  | .ok ord => generateMultiplierRows fuel db g ord

/-- The inner loop of `generate_hybrid_topology`: add `cnt` parallel edges
whose endpoints are the finger trail's first and last terminals and whose
interior is its middle. -/
def hybridRowGraph (fir lst : Node) (mid : List Node) : ℕ → Graph → Graph
  | 0, g => g
  | n+1, g => hybridRowGraph fir lst mid n (addEdge g fir lst mid none)

/-- The per-row loop of `generate_hybrid_topology`. -/
def generateHybridRows (fuel : ℕ) (fir lst : Node) (mid : List Node)
    (cnt : ℕ) : ℕ → Except PyErr (List (List Node))
  | 0 => .ok []
  | n+1 =>
    match fleuryAlgorithm fuel (hybridRowGraph fir lst mid cnt []) false with
    | .error err => .error err
    | .ok row =>
      match generateHybridRows fuel fir lst mid cnt n with
      | .error err => .error err
      | .ok rest => .ok (row :: rest)

/-- `generate_hybrid_topology`: the finger trail of the multi-finger pass
becomes a single logical edge, replicated `multiplier // mp_row` times per
row, each row traversed non-finger. -/
def generateHybrid (fuel : ℕ) (db : PyF) (g : Group) :
    Except PyErr (List (List Node)) :=
  match generateMultiFinger fuel db g with
  | .error err => .error err
  | .ok mf =>
    match mf with
    | [] => .error .indexError
    | nodelist :: _ =>
      match nodelist with
      | [] => .error .indexError
      | fir :: tl =>
        let lst := (fir :: tl).getLast (by simp)
        let mid := ((fir :: tl).drop 1).dropLast
        match (allMultiplier g).head? with
        | none => .error .indexError
        | some m0 =>
          if g.mpRow = 0 then .error .zeroDivError
          else
            generateHybridRows fuel fir lst mid (m0.fdiv g.mpRow).toNat
              g.mpRow.toNat

/-- `MOSFET.generate_topology`: dispatch on the classified condition;
condition 3 prints an error and `sys.exit()`s, and the fall-through `None`
condition leaves `nodelist` unbound (`NameError`).  `sf`/`sm` are the
set-iteration orders fed to the classifier. -/
def generateTopology (fuel : ℕ) (db : PyF) (sf sm : List ℤ) (g : Group) :
    Except PyErr (List (List Node)) :=
  match getTopologyCondition sf sm (allFinger g) (allMultiplier g) with
  | some 0 => generateMultiFinger fuel db g
  | some 1 => generateMultiplier fuel db g
  | some 2 => generateHybrid fuel db g
  | some 3 => .error .sysExit
  | _ => .error .nameError

end DevGen

namespace DevGen

/-- With non-uniform fingers the non-uniform-multiplier scan always ends in
condition 3. -/
theorem scanMultCond_false (l : List ℤ) : scanMultCond false l = some 3 := by
  induction l with
  | nil => rfl
  | cons i rest ih =>
    by_cases h1 : 1 < i
    · simp [scanMultCond, h1, ih]
    · by_cases h2 : i < 1
      · simp [scanMultCond, h1, h2]
      · simp [scanMultCond, h1, h2, ih]

/-- With only values at most one, the finger scan reports condition 3 as
soon as it meets a value below one. -/
theorem scanFingersCond_le_one (s : List ℤ) (hle : ∀ i ∈ s, ¬ 1 < i)
    (hex : ∃ i ∈ s, i < 1) : scanFingersCond s = some 3 := by
  induction s with
  | nil =>
    obtain ⟨i, hi, -⟩ := hex
    cases hi
  | cons a t ih =>
    have ha : ¬ 1 < a := hle a (by simp)
    by_cases h2 : a < 1
    · simp [scanFingersCond, ha, h2]
    · simp only [scanFingersCond, if_neg ha, if_neg h2]
      apply ih
      · intro i hi
        exact hle i (by simp [hi])
      · obtain ⟨i, hi, hlt⟩ := hex
        rcases List.mem_cons.mp hi with h | h
        · omega
        · exact ⟨i, h, hlt⟩

/-- With only values at most one, the multiplier scan ends in condition 3
whatever the finger-uniformity flag is. -/
theorem scanMultCond_true_le_one (s : List ℤ) (hle : ∀ i ∈ s, ¬ 1 < i) :
    scanMultCond true s = some 3 := by
  induction s with
  | nil => rfl
  | cons a t ih =>
    have ha : ¬ 1 < a := hle a (by simp)
    by_cases h2 : a < 1
    · simp [scanMultCond, ha, h2]
    · simp only [scanMultCond, if_neg ha, if_neg h2]
      exact ih (fun i hi => hle i (by simp [hi]))

/-- Classification is condition 3, for every set-iteration order, on the
order-robust error domain. -/
theorem topology_condition_error (f m sf sm : List ℤ)
    (hf : SetEnum f sf) (hm : SetEnum m sm)
    (hpre :
      (m ≠ [] ∧ (∀ x ∈ m, x = m.headD 0) ∧ m.headD 0 < 1) ∨
      (m ≠ [] ∧ (∀ x ∈ m, x = m.headD 0) ∧ 1 < m.headD 0 ∧
        f ≠ [] ∧ (∀ x ∈ f, x = f.headD 0) ∧ f.headD 0 < 1) ∨
      (m ≠ [] ∧ (∀ x ∈ m, x = m.headD 0) ∧ 1 < m.headD 0 ∧
        (∃ x ∈ f, ∃ y ∈ f, x ≠ y) ∧ (∀ x ∈ f, ¬ 1 < x)) ∨
      ((∃ x ∈ m, ∃ y ∈ m, x ≠ y) ∧
        ¬ (f ≠ [] ∧ (∀ x ∈ f, x = f.headD 0) ∧ f.headD 0 = 1)) ∨
      ((∃ x ∈ m, ∃ y ∈ m, x ≠ y) ∧ (∀ x ∈ m, ¬ 1 < x))) :
    getTopologyCondition sf sm f m = some 3 := by
  unfold getTopologyCondition
  rcases hpre with ⟨hne, hall, hlt⟩ | ⟨hne, hall, hgt, hfne, hfall, hflt⟩ |
    ⟨hne, hall, hgt, ⟨x, hx, y, hy, hxy⟩, hfle⟩ |
    ⟨⟨x, hx, y, hy, hxy⟩, hnfu⟩ | ⟨⟨x, hx, y, hy, hxy⟩, hmle⟩
  · have hsm : sm = [m.headD 0] :=
      setEnum_eq_singleton m sm _ hm (headD_mem m hne) hall
    rw [hsm]
    rw [if_pos (by simp), if_neg (by omega), if_neg (by omega), if_pos hlt]
  · have hsm : sm = [m.headD 0] :=
      setEnum_eq_singleton m sm _ hm (headD_mem m hne) hall
    have hsf : sf = [f.headD 0] :=
      setEnum_eq_singleton f sf _ hf (headD_mem f hfne) hfall
    rw [hsm, hsf]
    rw [if_pos (by simp), if_neg (by omega), if_pos hgt, if_pos (by simp),
      if_neg (by omega), if_neg (by omega), if_pos hflt]
  · have hsm : sm = [m.headD 0] :=
      setEnum_eq_singleton m sm _ hm (headD_mem m hne) hall
    have hsfgt : 1 < sf.length := setEnum_one_lt_length f sf x y hf hx hy hxy
    rw [hsm]
    rw [if_pos (by simp), if_neg (by omega), if_pos hgt,
      if_neg (by omega), if_pos hsfgt]
    apply scanFingersCond_le_one
    · intro i hi
      exact hfle i (hf.2.1 i hi)
    · have hxle := hfle x hx
      have hyle := hfle y hy
      by_cases hx1 : x < 1
      · exact ⟨x, hf.2.2 x hx, hx1⟩
      · have hy1 : y < 1 := by omega
        exact ⟨y, hf.2.2 y hy, hy1⟩
  · have hsmgt : 1 < sm.length := setEnum_one_lt_length m sm x y hm hx hy hxy
    rw [if_neg (by omega), if_pos hsmgt]
    have hb : (decide (sf.length = 1) && f.headD 0 == 1) = false := by
      by_cases hsf1 : sf.length = 1
      · rcases List.length_eq_one.mp hsf1 with ⟨a, ha⟩
        obtain ⟨hfne, hfall⟩ := setEnum_singleton_uniform f a (ha ▸ hf)
        have hha : f.headD 0 = a := hfall _ (headD_mem f hfne)
        have hne1 : f.headD 0 ≠ 1 := by
          intro hc
          exact hnfu ⟨hfne, fun z hz => (hfall z hz).trans (hha.symm), hc⟩
        have hbeq : (f.headD 0 == 1) = false := beq_eq_false_iff_ne.mpr hne1
        rw [hbeq, Bool.and_false]
      · simp [hsf1]
    rw [hb, scanMultCond_false]
  · have hsmgt : 1 < sm.length := setEnum_one_lt_length m sm x y hm hx hy hxy
    rw [if_neg (by omega), if_pos hsmgt]
    have hle : ∀ i ∈ sm, ¬ 1 < i := fun i hi => hmle i (hm.2.1 i hi)
    cases hb : (decide (sf.length = 1) && f.headD 0 == 1) with
    | false => rw [scanMultCond_false]
    | true => exact scanMultCond_true_le_one sm hle

/-- C7: corrected.  The spec says any finger or multiplier below one, or a
non-uniform multiplier vector with a finger above one, is classified as the
error condition (3).  What holds, for every iteration order of the Python
sets (CPython's own order depends on the hash table, e.g. `set([8, 0])`
iterates `[8, 0]`): condition 3 is reached exactly on the order-robust
domain — uniform multipliers below one; uniform multipliers above one with
uniform fingers below one, or with non-uniform fingers none above one;
non-uniform multipliers with the fingers not uniformly one; or non-uniform
multipliers with no multiplier above one.  In the remaining mixed cases the
result depends on the set order, and when all multipliers equal one the
classifier returns condition 0 (multi-finger) unconditionally, so a finger
below one slips through. -/
theorem generateTopology_error (g : Group) (fuel : ℕ) (db : PyF)
    (sf sm : List ℤ)
    (hf : SetEnum (allFinger g) sf) (hm : SetEnum (allMultiplier g) sm)
    (hpre :
      (allMultiplier g ≠ [] ∧
        (∀ x ∈ allMultiplier g, x = (allMultiplier g).headD 0) ∧
        (allMultiplier g).headD 0 < 1) ∨
      (allMultiplier g ≠ [] ∧
        (∀ x ∈ allMultiplier g, x = (allMultiplier g).headD 0) ∧
        1 < (allMultiplier g).headD 0 ∧ allFinger g ≠ [] ∧
        (∀ x ∈ allFinger g, x = (allFinger g).headD 0) ∧
        (allFinger g).headD 0 < 1) ∨
      (allMultiplier g ≠ [] ∧
        (∀ x ∈ allMultiplier g, x = (allMultiplier g).headD 0) ∧
        1 < (allMultiplier g).headD 0 ∧
        (∃ x ∈ allFinger g, ∃ y ∈ allFinger g, x ≠ y) ∧
        (∀ x ∈ allFinger g, ¬ 1 < x)) ∨
      ((∃ x ∈ allMultiplier g, ∃ y ∈ allMultiplier g, x ≠ y) ∧
        ¬ (allFinger g ≠ [] ∧
          (∀ x ∈ allFinger g, x = (allFinger g).headD 0) ∧
          (allFinger g).headD 0 = 1)) ∨
      ((∃ x ∈ allMultiplier g, ∃ y ∈ allMultiplier g, x ≠ y) ∧
        (∀ x ∈ allMultiplier g, ¬ 1 < x))) :
    getTopologyCondition sf sm (allFinger g) (allMultiplier g) = some 3 ∧
    generateTopology fuel db sf sm g = .error .sysExit := by
  have hcond := topology_condition_error (allFinger g) (allMultiplier g)
    sf sm hf hm hpre
  refine ⟨hcond, ?_⟩
  unfold generateTopology
  rw [hcond]

/-- Instance constructor for the C7 concrete groups. -/
def c7inst (fng : ℤ) (mult : ℤ) : Inst := ⟨fng, mult, 1, 2, "S", "G", "D", "B"⟩

/-- Concrete group with fingers `[0, 2]` and multipliers `[1, 1]`. -/
def c7group : Group := ⟨"nmos", [c7inst 0 1, c7inst 2 1], "None", "None", 1, ""⟩

/-- C7 counterexample: all multipliers are one and one finger is zero, yet
the classifier returns condition 0 (multi-finger) and `generate_topology`
returns a topology normally instead of failing with condition 3.  The
enumerations `[0, 2]` and `[1]` are CPython's actual iteration orders for
`set([0, 2])` and `set([1, 1])` (and the multiplier branch taken here does
not consult the finger order at all). -/
theorem c7_classification_counterexample :
    SetEnum (allFinger c7group) [0, 2] ∧
    SetEnum (allMultiplier c7group) [1] ∧
    getTopologyCondition [0, 2] [1] (allFinger c7group)
      (allMultiplier c7group) = some 0 ∧
    (generateTopology 100 1 [0, 2] [1] c7group).isOk = true := by
  refine ⟨by decide, by decide, rfl, by decide⟩

/-- Witness for the amended C7 theorem: fingers `[0, 1]` (CPython iterates
`set([0, 1])` as `[0, 1]`), multipliers `[2, 2]`. -/
theorem generateTopology_error_witness :
    SetEnum (allFinger ⟨"nmos", [c7inst 0 2, c7inst 1 2], "None", "None", 1, ""⟩) [0, 1] ∧
    (getTopologyCondition [0, 1] [2]
      (allFinger ⟨"nmos", [c7inst 0 2, c7inst 1 2], "None", "None", 1, ""⟩)
      (allMultiplier ⟨"nmos", [c7inst 0 2, c7inst 1 2], "None", "None", 1, ""⟩) = some 3 ∧
    generateTopology 100 1 [0, 1] [2]
      ⟨"nmos", [c7inst 0 2, c7inst 1 2], "None", "None", 1, ""⟩
      = .error .sysExit) :=
  ⟨by decide,
   generateTopology_error ⟨"nmos", [c7inst 0 2, c7inst 1 2], "None", "None", 1, ""⟩
     100 1 [0, 1] [2] (by decide) (by decide) (by decide)⟩

end DevGen

namespace DevGen

/-- Rectangle (`Box` of the database): a layer name and two corner points
(`x = [x0, x1]`, `y = [y0, y1]`). -/
structure Box where
  layer : String
  x0 : PyF
  y0 : PyF
  x1 : PyF
  y1 : PyF
deriving DecidableEq, Repr

/-- Pin record: net, layer and the two corner points `pt1`/`pt2`. -/
structure Pin where
  net : String
  layer : String
  x0 : PyF
  y0 : PyF
  x1 : PyF
  y1 : PyF
deriving DecidableEq, Repr

/-- The design-rule aliases bound by `MOSFET.get_design_rules`, already
resolved against the technology tables for the group's kind. -/
structure Deck where
  grid : PyF
  co_sz : PyF
  ga_spc_ga : PyF
  po_spc_co : PyF
  co_spc_co : PyF
  df_enc_co : PyF
  df_spc_po : PyF
  df_spc_df : PyF
  po_ext_df : PyF
  df_ext_po : PyF
  df_wid : PyF
  im_enc_df : PyF
  im_enc_ga : PyF
  im_spc_im : PyF
  im_wid : PyF
  im_area : PyF
  nw_enc_pdf : PyF
  nw_area : PyF
  m1_wid : PyF
  m1_spc_m1 : PyF
  m1_enc_co : PyF
  m1_enc_coe : PyF
  tim_enc_tdf : PyF
  tdf_enc_tco : PyF
  tim_spc_df : PyF
  im_spc_tdf : PyF
  tim_wid : PyF
  tdf_wid : PyF
  tim_area : PyF
  tdf_area : PyF
deriving DecidableEq, Repr

/-- The hard-coded `self.tap_space = 0.2`. -/
def tapSpace : PyF := ⟨1, 5, by norm_num⟩

/-- Primary diffusion layer for the group kind. -/
def dfL (kind : String) : String :=
  if kind = "nmos" then "ndiffusion" else "pdiffusion"

/-- Primary implant layer for the group kind. -/
def imL (kind : String) : String :=
  if kind = "nmos" then "nimplant" else "pimplant"

/-- Tap diffusion layer for the group kind. -/
def tdfL (kind : String) : String :=
  if kind = "nmos" then "pdiffusion" else "ndiffusion"

/-- Tap implant layer for the group kind. -/
def timL (kind : String) : String :=
  if kind = "nmos" then "pimplant" else "nimplant"

/-- Layer-keyed shape table, insertion ordered like a Python dict. -/
abbrev Shapes := List (String × List Box)

/-- Look a layer up (empty when absent). -/
def shGet : Shapes → String → List Box
  | [], _ => []
  | p :: rest, k => if p.1 = k then p.2 else shGet rest k

/-- Dict assignment: overwrite an existing layer or append a new key. -/
def shPut : Shapes → String → List Box → Shapes
  | [], k, l => [(k, l)]
  | (k0, l0) :: rest, k, l =>
    if k0 = k then (k, l) :: rest else (k0, l0) :: shPut rest k l

/-- `self.group.shape[layer] += boxes`. -/
def shAdd (s : Shapes) (k : String) (boxes : List Box) : Shapes :=
  shPut s k (shGet s k ++ boxes)

/-- `MOSFET.initialize_shape`: the kind-dependent preset layer table. -/
def initShapes (kind : String) : Shapes :=
  if kind = "nmos" then
    [("ndiffusion", []), ("nimplant", []), ("poly", []), ("contact", []),
     ("metal1", []), ("pdiffusion", []), ("pimplant", [])]
  else
    [("pdiffusion", []), ("pimplant", []), ("poly", []), ("contact", []),
     ("metal1", []), ("ndiffusion", []), ("nimplant", []), ("nwell", [])]

/-- Python `min` over a nonempty float list (first minimum wins). -/
def pyMin (a b : PyF) : PyF := if b.n * a.d < a.n * b.d then b else a

/-- `min(list)` with the first element as the start value. -/
def listMin : List PyF → PyF
  | [] => 0
  | x :: xs => xs.foldl pyMin x

/-- `max(list)` with the first element as the start value. -/
def listMax : List PyF → PyF
  | [] => 0
  | x :: xs => xs.foldl pyMax x

/-- `MOSFET.merge_shape`: bounding extent of a shape list, `none` (Python
`None` four-tuple) when the list is empty. -/
def mergeShape (boxes : List Box) : Option (PyF × PyF × PyF × PyF) :=
  match boxes with
  | [] => none
  | _ =>
    let xs := boxes.flatMap fun b => [b.x0, b.x1]
    let ys := boxes.flatMap fun b => [b.y0, b.y1]
    some (listMin xs, listMax xs, listMin ys, listMax ys)

/-- `round(c/grid) * grid`. -/
def roundGrid (x grid : PyF) : PyF := PyF.ofInt (pyRound (x / grid)) * grid

/-- `MOSFET.generate_first_diff_layout`: leading diffusion with a vertical
contact array and a metal1 cover, plus a metal1 pin on the current net.
`next_node.width` on a missing next node raises `AttributeError`; an empty
contact array would fault on `co_shape[0]`. -/
def genFirstDiff (d : Deck) (kind : String) (curr : Node) (next : Option Node)
    (sh : Shapes) : Except PyErr (Shapes × List Pin) :=
  match next with
  | none => .error .attributeError
  | some nxt =>
    let df_x0 : PyF := 0
    let df_x1 := d.df_enc_co * 2 + d.co_sz
    let df_y0 : PyF := 0
    let df_y1 := pyMax (d.df_enc_co * 2 + d.co_sz) nxt.width
    let dfBox : Box := ⟨dfL kind, df_x0, df_y0, df_x1, df_y1⟩
    let numCo := pyTrunc ((df_y1 - df_y0 - d.df_enc_co * 2 - d.co_sz) /
      (d.co_sz + d.co_spc_co)) + 1
    let dfEncCo := (df_y1 - df_y0 - PyF.ofInt numCo * d.co_sz -
      PyF.ofInt (numCo - 1) * d.co_spc_co) / 2
    let co_x0 := df_x0 + d.df_enc_co
    let co_x1 := co_x0 + d.co_sz
    let coBoxes := (List.range numCo.toNat).map fun i =>
      let co_y0 := df_y0 + dfEncCo + PyF.ofInt (Int.ofNat i) * (d.co_sz + d.co_spc_co)
      (⟨"contact", co_x0, co_y0, co_x1, co_y0 + d.co_sz⟩ : Box)
    match coBoxes with
    | [] => .error .indexError
    | first :: _ =>
      let last := coBoxes.getLast?.getD first
      let m1_x0 := co_x0 - d.m1_enc_co
      let m1_x1 := co_x1 + d.m1_enc_co
      let m1_y0 := first.y0 - d.m1_enc_coe
      let m1_y1 := last.y1 + d.m1_enc_coe
      let m1Box : Box := ⟨"metal1", m1_x0, m1_y0, m1_x1, m1_y1⟩
      .ok (shAdd (shAdd (shAdd sh (dfL kind) [dfBox]) "contact" coBoxes)
            "metal1" [m1Box],
           [⟨curr.net, "metal1", m1_x0, m1_y0, m1_x1, m1_y1⟩])

/-- `MOSFET.generate_diff_gate_layout`: gate after diffusion — the channel
diffusion and the poly stripe, plus a poly pin.  Reads the last contact box
(`shape[contact][-1]`). -/
def genDiffGate (d : Deck) (kind : String) (curr : Node) (sh : Shapes) :
    Except PyErr (Shapes × List Pin) :=
  match (shGet sh "contact").getLast? with
  | none => .error .indexError
  | some lastCo =>
    let co_x1 := lastCo.x1
    let df_x0 := co_x1 + d.po_spc_co - d.df_ext_po
    let df_x1 := df_x0 + curr.length + d.df_ext_po * 2
    let df_y0 : PyF := 0
    let df_y1 := curr.width
    let dfBox : Box := ⟨dfL kind, df_x0, df_y0, df_x1, df_y1⟩
    let po_x0 := df_x0 + d.df_ext_po
    let po_x1 := po_x0 + curr.length
    let po_y0 := df_y0 - d.po_ext_df
    let po_y1 := df_y1 + d.po_ext_df
    let poBox : Box := ⟨"poly", po_x0, po_y0, po_x1, po_y1⟩
    .ok (shAdd (shAdd sh (dfL kind) [dfBox]) "poly" [poBox],
         [⟨curr.net, "poly", po_x0, po_y0, po_x1, po_y1⟩])

/-- `MOSFET.generate_gate_diff_layout`: diffusion after a gate, horizontally
placed from the last poly stripe; the diffusion height also accounts for a
following gate's width. -/
def genGateDiff (d : Deck) (kind : String) (prev curr : Node)
    (next : Option Node) (sh : Shapes) : Except PyErr (Shapes × List Pin) :=
  match (shGet sh "poly").getLast? with
  | none => .error .indexError
  | some lastPo =>
    let po_x1 := lastPo.x1
    let df_x0 := po_x1 + d.po_spc_co - d.df_enc_co
    let df_x1 := df_x0 + d.df_enc_co * 2 + d.co_sz
    let df_y0 : PyF := 0
    let df_y1 :=
      match next with
      | some nxt =>
        if nxt.type = "gate" then
          pyMax3 (d.df_enc_co * 2 + d.co_sz) prev.width nxt.width
        else pyMax (d.df_enc_co * 2 + d.co_sz) prev.width
      | none => pyMax (d.df_enc_co * 2 + d.co_sz) prev.width
    let dfBox : Box := ⟨dfL kind, df_x0, df_y0, df_x1, df_y1⟩
    let numCo := pyTrunc ((df_y1 - df_y0 - d.df_enc_co * 2 - d.co_sz) /
      (d.co_sz + d.co_spc_co)) + 1
    let dfEncCo := (df_y1 - df_y0 - PyF.ofInt numCo * d.co_sz -
      PyF.ofInt (numCo - 1) * d.co_spc_co) / 2
    let co_x0 := df_x0 + d.df_enc_co
    let co_x1 := co_x0 + d.co_sz
    let coBoxes := (List.range numCo.toNat).map fun i =>
      let co_y0 := df_y0 + dfEncCo + PyF.ofInt (Int.ofNat i) * (d.co_sz + d.co_spc_co)
      (⟨"contact", co_x0, co_y0, co_x1, co_y0 + d.co_sz⟩ : Box)
    match coBoxes with
    | [] => .error .indexError
    | first :: _ =>
      let last := coBoxes.getLast?.getD first
      let m1_x0 := co_x0 - d.m1_enc_co
      let m1_x1 := co_x1 + d.m1_enc_co
      let m1_y0 := first.y0 - d.m1_enc_coe
      let m1_y1 := last.y1 + d.m1_enc_coe
      let m1Box : Box := ⟨"metal1", m1_x0, m1_y0, m1_x1, m1_y1⟩
      .ok (shAdd (shAdd (shAdd sh (dfL kind) [dfBox]) "contact" coBoxes)
            "metal1" [m1Box],
           [⟨curr.net, "metal1", m1_x0, m1_y0, m1_x1, m1_y1⟩])

/-- `MOSFET.generate_gate_gate_layout`: a further gate directly after a gate,
spaced by the gate-to-gate rule. -/
def genGateGate (d : Deck) (kind : String) (curr : Node) (sh : Shapes) :
    Except PyErr (Shapes × List Pin) :=
  match (shGet sh "poly").getLast? with
  | none => .error .indexError
  | some lastPo =>
    let po_x1 := lastPo.x1
    let df_x0 := po_x1 + d.ga_spc_ga - d.df_ext_po
    let df_x1 := df_x0 + curr.length + d.df_ext_po * 2
    let df_y0 : PyF := 0
    let df_y1 := curr.width
    let dfBox : Box := ⟨dfL kind, df_x0, df_y0, df_x1, df_y1⟩
    let po_x0 := df_x0 + d.df_ext_po
    let po_x1b := po_x0 + curr.length
    let po_y0 := df_y0 - d.po_ext_df
    let po_y1 := df_y1 + d.po_ext_df
    let poBox : Box := ⟨"poly", po_x0, po_y0, po_x1b, po_y1⟩
    .ok (shAdd (shAdd sh (dfL kind) [dfBox]) "poly" [poBox],
         [⟨curr.net, "poly", po_x0, po_y0, po_x1b, po_y1⟩])

/-- `MOSFET.generate_break_diff_layout`: a diffusion break — a fresh
diffusion spaced from the previous diffusion's right edge, with contact
array and metal1 pin like the leading diffusion. -/
def genBreakDiff (d : Deck) (kind : String) (curr : Node)
    (next : Option Node) (sh : Shapes) : Except PyErr (Shapes × List Pin) :=
  match (shGet sh (dfL kind)).getLast? with
  | none => .error .indexError
  | some lastDf =>
    match next with
    | none => .error .attributeError
    | some nxt =>
      let df_x0 := lastDf.x1 + d.df_spc_df
      let df_x1 := df_x0 + d.df_enc_co * 2 + d.co_sz
      let df_y0 : PyF := 0
      let df_y1 := pyMax (d.df_enc_co * 2 + d.co_sz) nxt.width
      let dfBox : Box := ⟨dfL kind, df_x0, df_y0, df_x1, df_y1⟩
      let numCo := pyTrunc ((df_y1 - df_y0 - d.df_enc_co * 2 - d.co_sz) /
        (d.co_sz + d.co_spc_co)) + 1
      let dfEncCo := (df_y1 - df_y0 - PyF.ofInt numCo * d.co_sz -
        PyF.ofInt (numCo - 1) * d.co_spc_co) / 2
      let co_x0 := df_x0 + d.df_enc_co
      let co_x1 := co_x0 + d.co_sz
      let coBoxes := (List.range numCo.toNat).map fun i =>
        let co_y0 := df_y0 + dfEncCo + PyF.ofInt (Int.ofNat i) * (d.co_sz + d.co_spc_co)
        (⟨"contact", co_x0, co_y0, co_x1, co_y0 + d.co_sz⟩ : Box)
      match coBoxes with
      | [] => .error .indexError
      | first :: _ =>
        let last := coBoxes.getLast?.getD first
        let m1_x0 := co_x0 - d.m1_enc_co
        let m1_x1 := co_x1 + d.m1_enc_co
        let m1_y0 := first.y0 - d.m1_enc_coe
        let m1_y1 := last.y1 + d.m1_enc_coe
        let m1Box : Box := ⟨"metal1", m1_x0, m1_y0, m1_x1, m1_y1⟩
        .ok (shAdd (shAdd (shAdd sh (dfL kind) [dfBox]) "contact" coBoxes)
              "metal1" [m1Box],
             [⟨curr.net, "metal1", m1_x0, m1_y0, m1_x1, m1_y1⟩])

end DevGen

namespace DevGen

/-- The `(prev.kind, curr.kind)` dispatch of `MOSFET.generate_layout`.  A
leading gate touches `prev_node.type` on `None` (`AttributeError`); any other
unrecognized pair prints `"Error: Invalid Node Type"` and continues with the
state unchanged. -/
def processNode (d : Deck) (kind : String) (prev : Option Node) (curr : Node)
    (next : Option Node) (sh : Shapes) : Except PyErr (Shapes × List Pin) :=
  if curr.type = "diff" ∧ prev = none then genFirstDiff d kind curr next sh
  else
    match prev with
    | none =>
      if curr.type = "gate" then .error .attributeError
      else .ok (sh, [])
    | some p =>
      if curr.type = "gate" ∧ p.type = "diff" then genDiffGate d kind curr sh
      else if curr.type = "diff" ∧ p.type = "gate" then
        genGateDiff d kind p curr next sh
      else if curr.type = "diff" ∧ p.type = "diff" then
        genBreakDiff d kind curr next sh
      else if curr.type = "gate" ∧ p.type = "gate" then genGateGate d kind curr sh
      else .ok (sh, [])

/-- The `for i in range(len(row))` walk of one topology row, carried by the
number of remaining positions. -/
def processRowAux (d : Deck) (kind : String) (row : List Node) :
    ℕ → ℕ → Shapes → Except PyErr (Shapes × List Pin)
  | 0, _, sh => .ok (sh, [])
  | rem+1, i, sh =>
    match row[i]? with
    | none => .ok (sh, [])
    | some curr =>
      let prev := if i = 0 then none else row[i-1]?
      let next := row[i+1]?
      match processNode d kind prev curr next sh with
      | .error err => .error err
      | .ok (sh1, pins) =>
        match processRowAux d kind row rem (i+1) sh1 with
        | .error err => .error err
        | .ok (sh2, pins2) => .ok (sh2, pins ++ pins2)

/-- Walk one row from its first position. -/
def processRow (d : Deck) (kind : String) (row : List Node) (sh : Shapes) :
    Except PyErr (Shapes × List Pin) :=
  processRowAux d kind row row.length 0 sh

/-- The outer `for row in self.group.topology` loop. -/
def processRows (d : Deck) (kind : String) :
    List (List Node) → Shapes → Except PyErr (Shapes × List Pin)
  | [], sh => .ok (sh, [])
  | row :: rest, sh =>
    match processRow d kind row sh with
    | .error err => .error err
    | .ok (sh1, pins) =>
      match processRows d kind rest sh1 with
      | .error err => .error err
      | .ok (sh2, pins2) => .ok (sh2, pins ++ pins2)

/-- The per-diffusion inflation loop of `MOSFET.insert_implant_shape`:
append one implant rectangle per primary diffusion, enlarged by the
implant enclosure rules. -/
def inflateImplant (d : Deck) (kind : String) (sh : Shapes) : Shapes :=
  shAdd sh (imL kind) ((shGet sh (dfL kind)).map fun b =>
    (⟨imL kind, b.x0 - d.im_enc_df, b.y0 - pyMax d.im_enc_df d.im_enc_ga,
      b.x1 + d.im_enc_df, b.y1 + pyMax d.im_enc_df d.im_enc_ga⟩ : Box))

/-- `MOSFET.insert_implant_shape`, continued: merge the inflated implant
layer to its bounding box when all four merged coordinates are truthy
(non-zero), and heal a below-minimum area by the source's asymmetric
outward scaling followed by grid rounding. -/
def insertImplantShape (d : Deck) (kind : String) (sh : Shapes) : Shapes :=
  let sh1 := inflateImplant d kind sh
  match mergeShape (shGet sh1 (imL kind)) with
  | none => sh1
  | some (x0, x1, y0, y1) =>
    if x0.n ≠ 0 ∧ x1.n ≠ 0 ∧ y0.n ≠ 0 ∧ y1.n ≠ 0 then
      if (x1 - x0) * (y1 - y0) < d.im_area then
        let scale := pySqrt (d.im_area / ((x1 - x0) * (y1 - y0)))
        let x0a := x0 - (x1 - x0) * scale / 2
        let x1a := x1 + (x1 - x0a) * scale / 2
        let y0a := y0 - (y1 - y0) * scale / 2
        let y1a := y1 + (y1 - y0a) * scale / 2
        let x0r := roundGrid x0a d.grid
        let x1r := roundGrid x1a d.grid
        let y0r := roundGrid y0a d.grid
        let y1r := roundGrid y1a d.grid
        shPut sh1 (imL kind) [⟨imL kind, x0r, y0r, x1r, y1r⟩]
      else shPut sh1 (imL kind) [⟨imL kind, x0, y0, x1, y1⟩]
    else sh1

/-- `MOSFET.insert_nwell_shape`: for a pmos group, inflate the primary and
tap diffusions, merge the nwell layer, and heal a below-minimum area by the
symmetric center scaling followed by grid rounding. -/
def insertNwellShape (d : Deck) (kind : String) (sh : Shapes) : Shapes :=
  if kind = "pmos" then
    let dfs := shGet sh (dfL kind) ++ shGet sh (tdfL kind)
    let nwBoxes := dfs.map fun b =>
      (⟨"nwell", b.x0 - d.nw_enc_pdf, b.y0 - d.nw_enc_pdf,
        b.x1 + d.nw_enc_pdf, b.y1 + d.nw_enc_pdf⟩ : Box)
    let sh1 := shAdd sh "nwell" nwBoxes
    match mergeShape (shGet sh1 "nwell") with
    | none => sh1
    | some (x0, x1, y0, y1) =>
      if x0.n ≠ 0 ∧ x1.n ≠ 0 ∧ y0.n ≠ 0 ∧ y1.n ≠ 0 then
        if (x1 - x0) * (y1 - y0) < d.nw_area then
          let scale := pySqrt (d.nw_area / ((x1 - x0) * (y1 - y0)))
          let width := (x1 - x0) * scale
          let height := (y1 - y0) * scale
          let cx := (x0 + x1) / 2
          let cy := (y0 + y1) / 2
          let x0r := roundGrid (cx - width / 2) d.grid
          let x1r := roundGrid (cx + width / 2) d.grid
          let y0r := roundGrid (cy - height / 2) d.grid
          let y1r := roundGrid (cy + height / 2) d.grid
          shPut sh1 "nwell" [⟨"nwell", x0r, y0r, x1r, y1r⟩]
        else shPut sh1 "nwell" [⟨"nwell", x0, y0, x1, y1⟩]
      else sh1
  else sh

/-- Translate a rectangle by the origin shift. -/
def shiftBox (ox oy : PyF) (b : Box) : Box :=
  ⟨b.layer, b.x0 - ox, b.y0 - oy, b.x1 - ox, b.y1 - oy⟩

/-- Translate a pin by the origin shift. -/
def shiftPin (ox oy : PyF) (p : Pin) : Pin :=
  ⟨p.net, p.layer, p.x0 - ox, p.y0 - oy, p.x1 - ox, p.y1 - oy⟩

/-- Result of `generate_layout`: the shifted shape table and pins, the
boundary rectangle, and the subtracted origin offsets. -/
structure LayoutOut where
  shape : Shapes
  pin : List Pin
  boundary : Box
  ox : PyF
  oy : PyF
deriving DecidableEq, Repr

/-- `MOSFET.create_boundary`: the implant and tap-implant extent inflated by
0.5 becomes the origin; every rectangle and pin is shifted by its lower-left
corner and the boundary rectangle is written at the origin.  An empty merge
gives `None - 0.5`, a `TypeError`. -/
def createBoundary (d : Deck) (kind : String) (sh : Shapes) (pins : List Pin) :
    Except PyErr LayoutOut :=
  match mergeShape (shGet sh (imL kind) ++ shGet sh (timL kind)) with
  | none => .error .typeError
  | some (bx0, bx1, by0, by1) =>
    let incr : PyF := ⟨1, 2, by norm_num⟩
    let brx0 := bx0 - incr
    let brx1 := bx1 + incr
    let bry0 := by0 - incr
    let bry1 := by1 + incr
    let shifted : Shapes := sh.map fun p => (p.1, p.2.map (shiftBox brx0 bry0))
    let pins2 := pins.map (shiftPin brx0 bry0)
    let bnd : Box := ⟨"boundary", 0, 0, brx1 - brx0, bry1 - bry0⟩
    .ok ⟨shPut shifted "boundary" [bnd], pins2, bnd, brx0, bry0⟩

end DevGen

namespace DevGen

/-- `shape[0]` with `IndexError` on an empty list. -/
def firstBox (l : List Box) : Except PyErr Box :=
  match l.head? with
  | none => .error .indexError
  | some b => .ok b

/-- `shape[-1]` with `IndexError` on an empty list. -/
def lastBox (l : List Box) : Except PyErr Box :=
  match l.getLast? with
  | none => .error .indexError
  | some b => .ok b

/-- `shp.x[1] = v` over a list of tap boxes. -/
def stretchX1 (v : PyF) (l : List Box) : List Box :=
  l.map fun b => { b with x1 := v }

/-- `shp.x[0] = v` over a list of tap boxes. -/
def stretchX0 (v : PyF) (l : List Box) : List Box :=
  l.map fun b => { b with x0 := v }

/-- The corner-merge scan: lower `y0` to any box's `y1` below it and raise
`y1` to any box's `y0` above it. -/
def clampY (l : List Box) (y0 y1 : PyF) : PyF × PyF :=
  l.foldl (fun acc b =>
    (if b.y1 < acc.1 then b.y1 else acc.1,
     if acc.2 < b.y0 then b.y0 else acc.2)) (y0, y1)

/-- `pin.pt2[0] = v` over a list of pins. -/
def pinsX1 (v : PyF) (l : List Pin) : List Pin :=
  l.map fun p => { p with x1 := v }

/-- `pin.pt1[0] = v` over a list of pins. -/
def pinsX0 (v : PyF) (l : List Pin) : List Pin :=
  l.map fun p => { p with x0 := v }

/-- `MOSFET.create_body`: construct the body-tap ring on the requested sides
(top, bottom, right, left in that order), merging perpendicular corners by
mutating the horizontal taps' extents and pins, then append everything to
the tap layers. -/
def createBody (d : Deck) (kind : String) (tap : String) (bodyNet : String)
    (sh : Shapes) : Except PyErr (Shapes × List Pin) := do
  if tap = "" then
    return (sh, [])
  else
    let tapPos := tap.splitOn ","
    let tIn := tapPos.contains "t"
    let bIn := tapPos.contains "b"
    let rIn := tapPos.contains "r"
    let lIn := tapPos.contains "l"
    let mut topTim : List Box := []
    let mut btmTim : List Box := []
    let mut rgtTim : List Box := []
    let mut lftTim : List Box := []
    let mut topTdf : List Box := []
    let mut btmTdf : List Box := []
    let mut rgtTdf : List Box := []
    let mut lftTdf : List Box := []
    let mut topTco : List Box := []
    let mut btmTco : List Box := []
    let mut rgtTco : List Box := []
    let mut lftTco : List Box := []
    let mut topM1 : List Box := []
    let mut btmM1 : List Box := []
    let mut rgtM1 : List Box := []
    let mut lftM1 : List Box := []
    let mut topPin : List Pin := []
    let mut btmPin : List Pin := []
    let mut rgtPin : List Pin := []
    let mut lftPin : List Pin := []
    if tIn then
      let dist := pyMax3 d.tim_spc_df (d.im_spc_tdf - d.tim_enc_tdf) tapSpace
      let df0 ← firstBox (shGet sh (dfL kind))
      let dfN ← lastBox (shGet sh (dfL kind))
      let im0 ← firstBox (shGet sh (imL kind))
      let tim_x0 := df0.x0 - d.tim_enc_tdf
      let tim_x1 := dfN.x1 + d.tim_enc_tdf
      let tim_y0 := im0.y1 + dist
      let tim_y1a := tim_y0 + d.tim_enc_tdf * 2 + d.tdf_enc_tco * 2 + d.co_sz
      let tim_y1b :=
        if tim_y1a - tim_y0 < d.im_wid then roundGrid (tim_y0 + d.im_wid) d.grid
        else tim_y1a
      let tim_y1 :=
        if ¬ rIn ∧ ¬ lIn then
          (if (tim_y1b - tim_y0) * (tim_x1 - tim_x0) < d.tim_area then
            roundGrid (tim_y0 + d.tim_area / (tim_x1 - tim_x0)) d.grid
          else tim_y1b)
        else tim_y1b
      topTim := [⟨timL kind, tim_x0, tim_y0, tim_x1, tim_y1⟩]
      let tdf_x0 := df0.x0
      let tdf_x1 := dfN.x1
      let tdf_y0 := tim_y0 + d.tim_enc_tdf
      let tdf_y1 := tim_y1 - d.tim_enc_tdf
      topTdf := [⟨tdfL kind, tdf_x0, tdf_y0, tdf_x1, tdf_y1⟩]
      let numCo := pyTrunc ((tdf_x1 - tdf_x0 - d.tdf_enc_tco * 2 - d.co_sz) /
        (d.co_sz + d.co_spc_co)) + 1
      let encX := (tdf_x1 - tdf_x0 - PyF.ofInt numCo * d.co_sz -
        PyF.ofInt (numCo - 1) * d.co_spc_co) / 2
      let encY := (tdf_y1 - tdf_y0 - d.co_sz) / 2
      let tco_y0 := tdf_y0 + encY
      let tco_y1 := tdf_y1 - encY
      topTco := (List.range numCo.toNat).map fun i =>
        let tco_x0 := tdf_x0 + encX + PyF.ofInt (Int.ofNat i) * (d.co_sz + d.co_spc_co)
        (⟨"contact", tco_x0, tco_y0, tco_x0 + d.co_sz, tco_y1⟩ : Box)
      let coF ← firstBox topTco
      let coL ← lastBox topTco
      let m1_x0 := coF.x0 - d.m1_enc_coe
      let m1_x1 := coL.x1 + d.m1_enc_coe
      let m1_y0 := tco_y0 - d.m1_enc_co
      let m1_y1 := tco_y1 + d.m1_enc_co
      topM1 := [⟨"metal1", m1_x0, m1_y0, m1_x1, m1_y1⟩]
      topPin := [⟨bodyNet, "metal1", m1_x0, m1_y0, m1_x1, m1_y1⟩]
    if bIn then
      let dist := pyMax3 d.tim_spc_df (d.im_spc_tdf - d.tim_enc_tdf) tapSpace
      let df0 ← firstBox (shGet sh (dfL kind))
      let dfN ← lastBox (shGet sh (dfL kind))
      let im0 ← firstBox (shGet sh (imL kind))
      let tim_x0 := df0.x0 - d.tim_enc_tdf
      let tim_x1 := dfN.x1 + d.tim_enc_tdf
      let tim_y1 := im0.y0 - dist
      let tim_y0a := tim_y1 - d.tim_enc_tdf * 2 - d.tdf_enc_tco * 2 - d.co_sz
      let tim_y0b :=
        if tim_y1 - tim_y0a < d.im_wid then roundGrid (tim_y1 - d.im_wid) d.grid
        else tim_y0a
      let tim_y0 :=
        if ¬ rIn ∧ ¬ lIn then
          (if (tim_y1 - tim_y0b) * (tim_x1 - tim_x0) < d.tim_area then
            roundGrid (tim_y1 - d.tim_area / (tim_x1 - tim_x0)) d.grid
          else tim_y0b)
        else tim_y0b
      btmTim := [⟨timL kind, tim_x0, tim_y0, tim_x1, tim_y1⟩]
      let tdf_x0 := df0.x0
      let tdf_x1 := dfN.x1
      let tdf_y0 := tim_y0 + d.tim_enc_tdf
      let tdf_y1 := tim_y1 - d.tim_enc_tdf
      btmTdf := [⟨tdfL kind, tdf_x0, tdf_y0, tdf_x1, tdf_y1⟩]
      let numCo := pyTrunc ((tdf_x1 - tdf_x0 - d.tdf_enc_tco * 2 - d.co_sz) /
        (d.co_sz + d.co_spc_co)) + 1
      let encX := (tdf_x1 - tdf_x0 - PyF.ofInt numCo * d.co_sz -
        PyF.ofInt (numCo - 1) * d.co_spc_co) / 2
      let encY := (tdf_y1 - tdf_y0 - d.co_sz) / 2
      let tco_y0 := tdf_y0 + encY
      let tco_y1 := tdf_y1 - encY
      btmTco := (List.range numCo.toNat).map fun i =>
        let tco_x0 := tdf_x0 + encX + PyF.ofInt (Int.ofNat i) * (d.co_sz + d.co_spc_co)
        (⟨"contact", tco_x0, tco_y0, tco_x0 + d.co_sz, tco_y1⟩ : Box)
      let coF ← firstBox btmTco
      let coL ← lastBox btmTco
      let m1_x0 := coF.x0 - d.m1_enc_coe
      let m1_x1 := coL.x1 + d.m1_enc_coe
      let m1_y0 := tco_y0 - d.m1_enc_co
      let m1_y1 := tco_y1 + d.m1_enc_co
      btmM1 := [⟨"metal1", m1_x0, m1_y0, m1_x1, m1_y1⟩]
      btmPin := [⟨bodyNet, "metal1", m1_x0, m1_y0, m1_x1, m1_y1⟩]
    if rIn then
      let dist := pyMax3 d.tim_spc_df (d.im_spc_tdf - d.tim_enc_tdf) tapSpace
      let df0 ← firstBox (shGet sh (dfL kind))
      let dfN ← lastBox (shGet sh (dfL kind))
      let im0 ← firstBox (shGet sh (imL kind))
      let tim_y0a := df0.y0 - d.tim_enc_tdf
      let tim_y1a := dfN.y1 + d.tim_enc_tdf
      let tim_x0 := im0.x1 + dist
      let tim_x1a := tim_x0 + d.tim_enc_tdf * 2 + d.tdf_enc_tco * 2 + d.co_sz
      let tim_x1b :=
        if tim_x1a - tim_x0 < d.im_wid then roundGrid (tim_x0 + d.im_wid) d.grid
        else tim_x1a
      let merged := tIn || bIn
      let tim_x1 :=
        if merged then tim_x1b
        else if (tim_y1a - tim_y0a) * (tim_x1b - tim_x0) < d.tim_area then
          roundGrid (tim_x0 + d.tim_area / (tim_y1a - tim_y0a)) d.grid
        else tim_x1b
      let timClamped :=
        if merged then clampY (topTim ++ btmTim) tim_y0a tim_y1a
        else (tim_y0a, tim_y1a)
      if merged then
        topTim := stretchX1 tim_x1 topTim
        btmTim := stretchX1 tim_x1 btmTim
      let tim_y0 := timClamped.1
      let tim_y1 := timClamped.2
      rgtTim := [⟨timL kind, tim_x0, tim_y0, tim_x1, tim_y1⟩]
      let tdf_x0 := tim_x0 + d.tim_enc_tdf
      let tdf_x1 := tim_x1 - d.tim_enc_tdf
      let tdf_y0a := df0.y0
      let tdf_y1a := dfN.y1
      let tdfClamped :=
        if merged then clampY (topTdf ++ btmTdf) tdf_y0a tdf_y1a
        else (tdf_y0a, tdf_y1a)
      if merged then
        topTdf := stretchX1 tdf_x1 topTdf
        btmTdf := stretchX1 tdf_x1 btmTdf
      let tdf_y0 := tdfClamped.1
      let tdf_y1 := tdfClamped.2
      rgtTdf := [⟨tdfL kind, tdf_x0, tdf_y0, tdf_x1, tdf_y1⟩]
      let numCo := pyTrunc ((tdf_y1 - tdf_y0 - d.tdf_enc_tco * 2 - d.co_sz) /
        (d.co_sz + d.co_spc_co)) + 1
      let encX := (tdf_x1 - tdf_x0 - d.co_sz) / 2
      let encY := (tdf_y1 - tdf_y0 - PyF.ofInt numCo * d.co_sz -
        PyF.ofInt (numCo - 1) * d.co_spc_co) / 2
      let tco_x0 := tdf_x0 + encX
      let tco_x1 := tdf_x1 - encX
      rgtTco := (List.range numCo.toNat).map fun i =>
        let tco_y0 := tdf_y0 + encY + PyF.ofInt (Int.ofNat i) * (d.co_sz + d.co_spc_co)
        (⟨"contact", tco_x0, tco_y0, tco_x1, tco_y0 + d.co_sz⟩ : Box)
      let coF ← firstBox rgtTco
      let coL ← lastBox rgtTco
      let m1_x0 := tco_x0 - d.m1_enc_co
      let m1_x1 := tco_x1 + d.m1_enc_co
      let m1_y0a := coF.y0 - d.m1_enc_coe
      let m1_y1a := coL.y1 + d.m1_enc_coe
      let m1Clamped :=
        if merged then clampY (topM1 ++ btmM1) m1_y0a m1_y1a
        else (m1_y0a, m1_y1a)
      if merged then
        topM1 := stretchX1 m1_x1 topM1
        btmM1 := stretchX1 m1_x1 btmM1
        topPin := pinsX1 m1_x1 topPin
        btmPin := pinsX1 m1_x1 btmPin
      let m1_y0 := m1Clamped.1
      let m1_y1 := m1Clamped.2
      rgtM1 := [⟨"metal1", m1_x0, m1_y0, m1_x1, m1_y1⟩]
      rgtPin := [⟨bodyNet, "metal1", m1_x0, m1_y0, m1_x1, m1_y1⟩]
    if lIn then
      let dist := pyMax3 d.tim_spc_df (d.im_spc_tdf - d.tim_enc_tdf) tapSpace
      let df0 ← firstBox (shGet sh (dfL kind))
      let dfN ← lastBox (shGet sh (dfL kind))
      let im0 ← firstBox (shGet sh (imL kind))
      let tim_y0a := df0.y0 - d.tim_enc_tdf
      let tim_y1a := dfN.y1 + d.tim_enc_tdf
      let tim_x1 := im0.x0 - dist
      let tim_x0a := tim_x1 - d.tim_enc_tdf * 2 - d.tdf_enc_tco * 2 - d.co_sz
      let tim_x0b :=
        if tim_x1 - tim_x0a < d.im_wid then roundGrid (tim_x1 - d.im_wid) d.grid
        else tim_x0a
      let merged := tIn || bIn
      let tim_x0 :=
        if merged then tim_x0b
        else if (tim_y1a - tim_y0a) * (tim_x1 - tim_x0b) < d.tim_area then
          roundGrid (tim_x1 - d.tim_area / (tim_y1a - tim_y0a)) d.grid
        else tim_x0b
      let timClamped :=
        if merged then clampY (topTim ++ btmTim) tim_y0a tim_y1a
        else (tim_y0a, tim_y1a)
      if merged then
        topTim := stretchX0 tim_x0 topTim
        btmTim := stretchX0 tim_x0 btmTim
      let tim_y0 := timClamped.1
      let tim_y1 := timClamped.2
      lftTim := [⟨timL kind, tim_x0, tim_y0, tim_x1, tim_y1⟩]
      let tdf_x0 := tim_x0 + d.tim_enc_tdf
      let tdf_x1 := tim_x1 - d.tim_enc_tdf
      let tdf_y0a := df0.y0
      let tdf_y1a := dfN.y1
      let tdfClamped :=
        if merged then clampY (topTdf ++ btmTdf) tdf_y0a tdf_y1a
        else (tdf_y0a, tdf_y1a)
      if merged then
        topTdf := stretchX0 tdf_x0 topTdf
        btmTdf := stretchX0 tdf_x0 btmTdf
      let tdf_y0 := tdfClamped.1
      let tdf_y1 := tdfClamped.2
      lftTdf := [⟨tdfL kind, tdf_x0, tdf_y0, tdf_x1, tdf_y1⟩]
      let numCo := pyTrunc ((tdf_y1 - tdf_y0 - d.tdf_enc_tco * 2 - d.co_sz) /
        (d.co_sz + d.co_spc_co)) + 1
      let encX := (tdf_x1 - tdf_x0 - d.co_sz) / 2
      let encY := (tdf_y1 - tdf_y0 - PyF.ofInt numCo * d.co_sz -
        PyF.ofInt (numCo - 1) * d.co_spc_co) / 2
      let tco_x0 := tdf_x0 + encX
      let tco_x1 := tdf_x1 - encX
      lftTco := (List.range numCo.toNat).map fun i =>
        let tco_y0 := tdf_y0 + encY + PyF.ofInt (Int.ofNat i) * (d.co_sz + d.co_spc_co)
        (⟨"contact", tco_x0, tco_y0, tco_x1, tco_y0 + d.co_sz⟩ : Box)
      let coF ← firstBox lftTco
      let coL ← lastBox lftTco
      let m1_x0 := tco_x0 - d.m1_enc_co
      let m1_x1 := tco_x1 + d.m1_enc_co
      let m1_y0a := coF.y0 - d.m1_enc_coe
      let m1_y1a := coL.y1 + d.m1_enc_coe
      let m1Clamped :=
        if merged then clampY (topM1 ++ btmM1) m1_y0a m1_y1a
        else (m1_y0a, m1_y1a)
      if merged then
        topM1 := stretchX0 m1_x0 topM1
        btmM1 := stretchX0 m1_x0 btmM1
        topPin := pinsX0 m1_x0 topPin
        btmPin := pinsX0 m1_x0 btmPin
      let m1_y0 := m1Clamped.1
      let m1_y1 := m1Clamped.2
      lftM1 := [⟨"metal1", m1_x0, m1_y0, m1_x1, m1_y1⟩]
      lftPin := [⟨bodyNet, "metal1", m1_x0, m1_y0, m1_x1, m1_y1⟩]
    let sh1 := shAdd sh (timL kind) (topTim ++ btmTim ++ rgtTim ++ lftTim)
    let sh2 := shAdd sh1 (tdfL kind) (topTdf ++ btmTdf ++ rgtTdf ++ lftTdf)
    let sh3 := shAdd sh2 "contact" (topTco ++ btmTco ++ rgtTco ++ lftTco)
    let sh4 := shAdd sh3 "metal1" (topM1 ++ btmM1 ++ rgtM1 ++ lftM1)
    return (sh4, topPin ++ btmPin ++ rgtPin ++ lftPin)

end DevGen

namespace DevGen

/-- `MOSFET.generate_layout` together with the constructor's
`initialize_shape`: walk every topology row, merge the implants, build the
body ring for the group's tap constraint (the bulk net of `inst[0]`, an
`IndexError` on an empty group), add the nwell, and normalize to the origin.
`pins0` is whatever `group.pin` already holds when the run starts; the run
only ever appends to it. -/
def generateLayout (d : Deck) (g : Group) (topology : List (List Node))
    (pins0 : List Pin) : Except PyErr LayoutOut :=
  match processRows d g.type topology (initShapes g.type) with
  | .error err => .error err
  | .ok (sh1, p1) =>
    let sh2 := insertImplantShape d g.type sh1
    match g.inst.head? with
    | none => .error .indexError
    | some inst0 =>
      match createBody d g.type g.tap inst0.bulk sh2 with
      | .error err => .error err
      | .ok (sh3, p2) =>
        let sh4 := insertNwellShape d g.type sh3
        createBoundary d g.type sh4 (pins0 ++ p1 ++ p2)

/-- One run of the full core on a group record: `Topo.MOSFET` (topology
generation, overwriting `group.topology`) followed by `Layout.MOSFET`
(shape table reset, layout generation).  The pin list is the one piece of
state carried in: the run returns the topology it stored and the layout
output whose `pin` field is the new value of `group.pin`. -/
def coreOnce (fuel : ℕ) (db : PyF) (sf sm : List ℤ) (d : Deck) (g : Group)
    (pins0 : List Pin) : Except PyErr (List (List Node) × LayoutOut) :=
  match generateTopology fuel db sf sm g with
  | .error err => .error err
  | .ok topo =>
    match generateLayout d g topo pins0 with
    | .error err => .error err
    | .ok lo => .ok (topo, lo)

end DevGen

namespace DevGen

/-- A dyadic design-rule deck used for the concrete runs below. -/
def devDeck : Deck :=
  { grid := ⟨1, 8, by norm_num⟩, co_sz := ⟨1, 4, by norm_num⟩,
    ga_spc_ga := ⟨1, 2, by norm_num⟩, po_spc_co := ⟨1, 4, by norm_num⟩,
    co_spc_co := ⟨1, 4, by norm_num⟩, df_enc_co := ⟨1, 8, by norm_num⟩,
    df_spc_po := ⟨1, 4, by norm_num⟩, df_spc_df := ⟨1, 2, by norm_num⟩,
    po_ext_df := ⟨1, 8, by norm_num⟩, df_ext_po := ⟨1, 8, by norm_num⟩,
    df_wid := ⟨1, 4, by norm_num⟩, im_enc_df := ⟨1, 8, by norm_num⟩,
    im_enc_ga := ⟨1, 4, by norm_num⟩, im_spc_im := ⟨1, 4, by norm_num⟩,
    im_wid := ⟨1, 4, by norm_num⟩, im_area := ⟨0, 1, by norm_num⟩,
    nw_enc_pdf := ⟨1, 4, by norm_num⟩, nw_area := ⟨0, 1, by norm_num⟩,
    m1_wid := ⟨1, 4, by norm_num⟩, m1_spc_m1 := ⟨1, 4, by norm_num⟩,
    m1_enc_co := ⟨1, 16, by norm_num⟩, m1_enc_coe := ⟨1, 8, by norm_num⟩,
    tim_enc_tdf := ⟨1, 8, by norm_num⟩, tdf_enc_tco := ⟨1, 8, by norm_num⟩,
    tim_spc_df := ⟨1, 4, by norm_num⟩, im_spc_tdf := ⟨1, 4, by norm_num⟩,
    tim_wid := ⟨1, 4, by norm_num⟩, tdf_wid := ⟨1, 4, by norm_num⟩,
    tim_area := ⟨0, 1, by norm_num⟩, tdf_area := ⟨0, 1, by norm_num⟩ }

/-- A two-finger transistor used for the concrete runs below. -/
def devInst : Inst :=
  { finger := 2, multiplier := 1, length := ⟨1, 4, by norm_num⟩,
    width := ⟨1, 1, by norm_num⟩, source := "S", gate := "G", drain := "D",
    bulk := "B" }

/-- An untapped nmos group holding `devInst`. -/
def devGroup : Group :=
  { type := "nmos", inst := [devInst], mfSym := "None", mpSym := "None",
    mpRow := 1, tap := "" }

/-- A topology row whose second node carries a type outside
`diff`/`gate`, so positions 1 and 2 hit the dispatch's `else`. -/
def c8row : List Node :=
  [⟨"diff", "S", ⟨1, 4, by norm_num⟩, ⟨1, 2, by norm_num⟩, 0⟩,
   ⟨"xxx", "X", ⟨1, 4, by norm_num⟩, ⟨1, 2, by norm_num⟩, 1⟩,
   ⟨"diff", "D", ⟨1, 4, by norm_num⟩, ⟨1, 2, by norm_num⟩, 2⟩,
   ⟨"gate", "G", ⟨1, 4, by norm_num⟩, ⟨1, 2, by norm_num⟩, 3⟩]

end DevGen

namespace DevGen

/-- C8: corrected.  The spec says an unrecognized `(prev, curr)` node pair
makes the geometry emitter fail fatally, identifying row and position and
producing no partial output.  In the source the dispatch's `else` only
prints `"Error: Invalid Node Type"` and continues with the next position,
leaving the shape state untouched and emitting no pin at that position —
so the walk goes on and later positions still produce geometry.  (Only a
leading gate, whose `prev_node` is `None`, crashes, with an
`AttributeError` rather than a report.) -/
theorem processNode_unrecognized_continues (d : Deck) (kind : String)
    (p curr : Node) (next : Option Node) (sh : Shapes)
    (h1 : ¬ (curr.type = "diff" ∧ p.type = "diff"))
    (h2 : ¬ (curr.type = "diff" ∧ p.type = "gate"))
    (h3 : ¬ (curr.type = "gate" ∧ p.type = "diff"))
    (h4 : ¬ (curr.type = "gate" ∧ p.type = "gate")) :
    processNode d kind (some p) curr next sh = .ok (sh, []) := by
  unfold processNode
  rw [if_neg (by simp)]
  show (if curr.type = "gate" ∧ p.type = "diff" then genDiffGate d kind curr sh
    else if curr.type = "diff" ∧ p.type = "gate" then
      genGateDiff d kind p curr next sh
    else if curr.type = "diff" ∧ p.type = "diff" then
      genBreakDiff d kind curr next sh
    else if curr.type = "gate" ∧ p.type = "gate" then genGateGate d kind curr sh
    else Except.ok (sh, [])) = Except.ok (sh, [])
  rw [if_neg h3, if_neg h2, if_neg h1, if_neg h4]

/-- Witness: a node of type `"xxx"` after a diffusion is skipped with the
state unchanged. -/
theorem processNode_unrecognized_continues_witness :
    (¬ ((c8row.get ⟨1, by decide⟩).type = "diff" ∧
        (c8row.get ⟨0, by decide⟩).type = "diff")) ∧
    processNode devDeck "nmos" (some (c8row.get ⟨0, by decide⟩))
      (c8row.get ⟨1, by decide⟩) none [] = .ok ([], []) :=
  ⟨by decide,
   processNode_unrecognized_continues devDeck "nmos" _ _ none []
     (by decide) (by decide) (by decide) (by decide)⟩

/-- Counterexample to C8 as stated: a row whose positions 1 and 2 form
unrecognized pairs still runs to completion; the trailing gate at
position 3 emits its poly stripe and pin, so the emitter produced partial
output and kept going instead of failing. -/
theorem c8_continuation_counterexample :
    (generateLayout devDeck devGroup [c8row] []).map
      (fun lo => ((shGet lo.shape "poly").length, lo.pin.map (·.net))) =
    .ok (1, ["S", "G"]) := by rfl

end DevGen

namespace DevGen

/-- Unfolded form of the cross-multiplication comparison. -/
theorem PyF.lt_def (a b : PyF) : (a < b) = (a.n * b.d < b.n * a.d) := rfl

/-- Unfolded form of the cross-multiplication comparison. -/
theorem PyF.le_def (a b : PyF) : (a ≤ b) = (a.n * b.d ≤ b.n * a.d) := rfl

/-- `max` never drops below its first argument. -/
theorem not_pyMax_lt_left (a b : PyF) : ¬ pyMax a b < a := by
  unfold pyMax
  split
  · rw [PyF.lt_def]
    omega
  · rw [PyF.lt_def]
    omega

/-- A value at least a positive bound is positive. -/
theorem pyF_pos_of_not_lt (e y : PyF) (he : (0 : PyF) < e) (hy : ¬ y < e) :
    (0 : PyF) < y := by
  rw [PyF.lt_def] at he hy ⊢
  have h0n : (0 : PyF).n = 0 := rfl
  have h0d : (0 : PyF).d = 1 := rfl
  rw [h0n, h0d] at he ⊢
  have hd := e.dpos
  have hd2 := y.dpos
  nlinarith [he, hy]

/-- `min` of two positives is positive. -/
theorem pyMin_pos (a b : PyF) (ha : (0 : PyF) < a) (hb : (0 : PyF) < b) :
    (0 : PyF) < pyMin a b := by
  unfold pyMin
  split
  · exact hb
  · exact ha

/-- Reading the key just written. -/
theorem shGet_shPut_self (s : Shapes) (k : String) (l : List Box) :
    shGet (shPut s k l) k = l := by
  induction s with
  | nil => simp [shPut, shGet]
  | cons p rest ih =>
    by_cases h : p.1 = k
    · simp [shPut, h, shGet]
    · simp [shPut, h, shGet, ih]

/-- Writing one key leaves the others unread. -/
theorem shGet_shPut_ne (s : Shapes) (k k' : String) (l : List Box)
    (h : k ≠ k') : shGet (shPut s k l) k' = shGet s k' := by
  induction s with
  | nil => simp [shPut, shGet, h]
  | cons p rest ih =>
    by_cases hp : p.1 = k
    · simp [shPut, hp, shGet, h]
    · simp only [shPut, hp, if_false, shGet]
      by_cases hp' : p.1 = k'
      · simp [hp']
      · simp [hp', ih]

/-- Appending to a layer appends to that layer's list. -/
theorem shGet_shAdd_self (s : Shapes) (k : String) (l : List Box) :
    shGet (shAdd s k l) k = shGet s k ++ l := by
  unfold shAdd
  exact shGet_shPut_self s k _

/-- Appending to one layer leaves the others unread. -/
theorem shGet_shAdd_ne (s : Shapes) (k k' : String) (l : List Box)
    (h : k ≠ k') : shGet (shAdd s k l) k' = shGet s k' := by
  unfold shAdd
  exact shGet_shPut_ne s k k' _ h

/-- The primary diffusion layer is distinct from the fixed layers. -/
theorem dfL_ne_contact (kind : String) : dfL kind ≠ "contact" := by
  unfold dfL
  split <;> decide

/-- The primary diffusion layer is distinct from the fixed layers. -/
theorem dfL_ne_metal1 (kind : String) : dfL kind ≠ "metal1" := by
  unfold dfL
  split <;> decide

/-- The primary diffusion layer is distinct from the fixed layers. -/
theorem dfL_ne_poly (kind : String) : dfL kind ≠ "poly" := by
  unfold dfL
  split <;> decide

/-- Recognizer for the rectangle the leading-diffusion emitter places: at
the origin, of the fixed contacted-diffusion width, and at least that tall. -/
def leadingDfBox (d : Deck) (b : Box) : Bool :=
  decide (b.x0 = (0 : PyF)) && decide (b.y0 = (0 : PyF)) &&
  decide (b.x1 = d.df_enc_co * 2 + d.co_sz) &&
  decide (¬ b.y1 < d.df_enc_co * 2 + d.co_sz)

/-- A topology row whose walk begins with a diffusion node. -/
def rowStartsDiff : List Node → Bool
  | [] => false
  | c :: _ => decide (c.type = "diff")

end DevGen

namespace DevGen

/-- Reading back the diffusion layer after the contact and metal1 appends. -/
theorem shGet_add3 (s : Shapes) (k : String) (b : Box) (l1 l2 : List Box)
    (h1 : k ≠ "contact") (h2 : k ≠ "metal1") :
    shGet (shAdd (shAdd (shAdd s k [b]) "contact" l1) "metal1" l2) k =
      shGet s k ++ [b] := by
  rw [shGet_shAdd_ne _ _ _ _ (Ne.symm h2), shGet_shAdd_ne _ _ _ _ (Ne.symm h1),
    shGet_shAdd_self]

/-- Reading back the diffusion layer after the poly append. -/
theorem shGet_add2 (s : Shapes) (k : String) (b : Box) (l : List Box)
    (h : k ≠ "poly") :
    shGet (shAdd (shAdd s k [b]) "poly" l) k = shGet s k ++ [b] := by
  rw [shGet_shAdd_ne _ _ _ _ (Ne.symm h), shGet_shAdd_self]

end DevGen

namespace DevGen

/-- The leading-diffusion emitter appends exactly one diffusion rectangle,
and that rectangle sits at the origin with the fixed width. -/
theorem genFirstDiff_df (d : Deck) (kind : String) (curr : Node)
    (next : Option Node) (sh sh' : Shapes) (pins : List Pin)
    (h : genFirstDiff d kind curr next sh = .ok (sh', pins)) :
    ∃ b : Box, shGet sh' (dfL kind) = shGet sh (dfL kind) ++ [b] ∧
      leadingDfBox d b = true := by
  unfold genFirstDiff at h
  cases next with
  | none => exact absurd h (by simp)
  | some nxt =>
    simp only at h
    split at h
    · exact absurd h (by simp)
    · simp only [Except.ok.injEq, Prod.mk.injEq] at h
      obtain ⟨hsh, _⟩ := h
      subst hsh
      refine ⟨_, shGet_add3 sh (dfL kind) _ _ _ (dfL_ne_contact kind)
        (dfL_ne_metal1 kind), ?_⟩
      simp only [leadingDfBox, Bool.and_eq_true, decide_eq_true_eq]
      refine ⟨⟨⟨?_, ?_⟩, ?_⟩, not_pyMax_lt_left _ _⟩ <;> trivial

/-- The gate-after-diffusion emitter appends exactly one diffusion
rectangle, whose bottom edge is at `y = 0`. -/
theorem genDiffGate_df (d : Deck) (kind : String) (curr : Node)
    (sh sh' : Shapes) (pins : List Pin)
    (h : genDiffGate d kind curr sh = .ok (sh', pins)) :
    ∃ b : Box, shGet sh' (dfL kind) = shGet sh (dfL kind) ++ [b] ∧
      b.y0 = 0 := by
  unfold genDiffGate at h
  split at h
  · exact absurd h (by simp)
  · simp only [Except.ok.injEq, Prod.mk.injEq] at h
    obtain ⟨hsh, _⟩ := h
    subst hsh
    refine ⟨_, shGet_add2 sh (dfL kind) _ _ (dfL_ne_poly kind), ?_⟩
    rfl

/-- The diffusion-after-gate emitter appends exactly one diffusion
rectangle, whose bottom edge is at `y = 0`. -/
theorem genGateDiff_df (d : Deck) (kind : String) (prev curr : Node)
    (next : Option Node) (sh sh' : Shapes) (pins : List Pin)
    (h : genGateDiff d kind prev curr next sh = .ok (sh', pins)) :
    ∃ b : Box, shGet sh' (dfL kind) = shGet sh (dfL kind) ++ [b] ∧
      b.y0 = 0 := by
  unfold genGateDiff at h
  split at h
  · exact absurd h (by simp)
  · simp only at h
    split at h
    · exact absurd h (by simp)
    · simp only [Except.ok.injEq, Prod.mk.injEq] at h
      obtain ⟨hsh, _⟩ := h
      subst hsh
      refine ⟨_, shGet_add3 sh (dfL kind) _ _ _ (dfL_ne_contact kind)
        (dfL_ne_metal1 kind), ?_⟩
      rfl

/-- The gate-after-gate emitter appends exactly one diffusion rectangle,
whose bottom edge is at `y = 0`. -/
theorem genGateGate_df (d : Deck) (kind : String) (curr : Node)
    (sh sh' : Shapes) (pins : List Pin)
    (h : genGateGate d kind curr sh = .ok (sh', pins)) :
    ∃ b : Box, shGet sh' (dfL kind) = shGet sh (dfL kind) ++ [b] ∧
      b.y0 = 0 := by
  unfold genGateGate at h
  split at h
  · exact absurd h (by simp)
  · simp only [Except.ok.injEq, Prod.mk.injEq] at h
    obtain ⟨hsh, _⟩ := h
    subst hsh
    refine ⟨_, shGet_add2 sh (dfL kind) _ _ (dfL_ne_poly kind), ?_⟩
    rfl

/-- The break-diffusion emitter appends exactly one diffusion rectangle,
whose bottom edge is at `y = 0`. -/
theorem genBreakDiff_df (d : Deck) (kind : String) (curr : Node)
    (next : Option Node) (sh sh' : Shapes) (pins : List Pin)
    (h : genBreakDiff d kind curr next sh = .ok (sh', pins)) :
    ∃ b : Box, shGet sh' (dfL kind) = shGet sh (dfL kind) ++ [b] ∧
      b.y0 = 0 := by
  unfold genBreakDiff at h
  split at h
  · exact absurd h (by simp)
  · split at h
    · exact absurd h (by simp)
    · simp only at h
      split at h
      · exact absurd h (by simp)
      · simp only [Except.ok.injEq, Prod.mk.injEq] at h
        obtain ⟨hsh, _⟩ := h
        subst hsh
        refine ⟨_, shGet_add3 sh (dfL kind) _ _ _ (dfL_ne_contact kind)
          (dfL_ne_metal1 kind), ?_⟩
        rfl

end DevGen

namespace DevGen

/-- One dispatch step only appends to the diffusion layer, and every
appended rectangle has its bottom edge at `y = 0`. -/
theorem processNode_df (d : Deck) (kind : String) (prev : Option Node)
    (curr : Node) (next : Option Node) (sh sh' : Shapes) (pins : List Pin)
    (h : processNode d kind prev curr next sh = .ok (sh', pins)) :
    ∃ new : List Box, shGet sh' (dfL kind) = shGet sh (dfL kind) ++ new ∧
      ∀ b ∈ new, b.y0 = 0 := by
  unfold processNode at h
  split at h
  · obtain ⟨b, hb, hlead⟩ := genFirstDiff_df d kind curr next sh sh' pins h
    simp only [leadingDfBox, Bool.and_eq_true, decide_eq_true_eq] at hlead
    exact ⟨[b], hb, by simpa using hlead.1.1.2⟩
  · split at h
    · split at h
      · exact absurd h (by simp)
      · simp only [Except.ok.injEq, Prod.mk.injEq] at h
        obtain ⟨hsh, _⟩ := h
        subst hsh
        exact ⟨[], by simp, by simp⟩
    · split at h
      · obtain ⟨b, hb, hy⟩ := genDiffGate_df d kind curr sh sh' pins h
        exact ⟨[b], hb, by simpa using hy⟩
      · split at h
        · obtain ⟨b, hb, hy⟩ :=
            genGateDiff_df d kind _ curr next sh sh' pins h
          exact ⟨[b], hb, by simpa using hy⟩
        · split at h
          · obtain ⟨b, hb, hy⟩ := genBreakDiff_df d kind curr next sh sh' pins h
            exact ⟨[b], hb, by simpa using hy⟩
          · split at h
            · obtain ⟨b, hb, hy⟩ := genGateGate_df d kind curr sh sh' pins h
              exact ⟨[b], hb, by simpa using hy⟩
            · simp only [Except.ok.injEq, Prod.mk.injEq] at h
              obtain ⟨hsh, _⟩ := h
              subst hsh
              exact ⟨[], by simp, by simp⟩

/-- The row walk only appends to the diffusion layer, and every appended
rectangle has its bottom edge at `y = 0`. -/
theorem processRowAux_df (d : Deck) (kind : String) (row : List Node)
    (rem : ℕ) : ∀ (i : ℕ) (sh sh' : Shapes) (pins : List Pin),
    processRowAux d kind row rem i sh = .ok (sh', pins) →
    ∃ new : List Box, shGet sh' (dfL kind) = shGet sh (dfL kind) ++ new ∧
      ∀ b ∈ new, b.y0 = 0 := by
  induction rem with
  | zero =>
    intro i sh sh' pins h
    unfold processRowAux at h
    simp only [Except.ok.injEq, Prod.mk.injEq] at h
    obtain ⟨hsh, _⟩ := h
    subst hsh
    exact ⟨[], by simp, by simp⟩
  | succ rem ih =>
    intro i sh sh' pins h
    unfold processRowAux at h
    split at h
    · simp only [Except.ok.injEq, Prod.mk.injEq] at h
      obtain ⟨hsh, _⟩ := h
      subst hsh
      exact ⟨[], by simp, by simp⟩
    · rename_i x0 curr hcurr
      dsimp only at h
      cases hpn : processNode d kind (if i = 0 then none else row[i - 1]?)
          curr row[i + 1]? sh with
      | error e =>
        rw [hpn] at h
        simp at h
      | ok pr =>
        rw [hpn] at h
        obtain ⟨sh1, pins1⟩ := pr
        dsimp only at h
        cases hrec : processRowAux d kind row rem (i + 1) sh1 with
        | error e =>
          rw [hrec] at h
          simp at h
        | ok pr2 =>
          rw [hrec] at h
          obtain ⟨sh2, pins2⟩ := pr2
          simp only [Except.ok.injEq, Prod.mk.injEq] at h
          obtain ⟨hsh, _⟩ := h
          subst hsh
          obtain ⟨new1, hone, hy1⟩ :=
            processNode_df d kind _ curr _ sh sh1 pins1 hpn
          obtain ⟨new2, htwo, hy2⟩ := ih (i + 1) sh1 sh2 pins2 hrec
          refine ⟨new1 ++ new2, ?_, ?_⟩
          · rw [htwo, hone, List.append_assoc]
          · intro b hb
            rcases List.mem_append.mp hb with hb1 | hb2
            · exact hy1 b hb1
            · exact hy2 b hb2

end DevGen

namespace DevGen

/-- At the head of a row the dispatch always takes the leading-diffusion
branch. -/
theorem processNode_none_diff (d : Deck) (kind : String) (c : Node)
    (next : Option Node) (sh : Shapes) (hc : c.type = "diff") :
    processNode d kind none c next sh = genFirstDiff d kind c next sh := by
  unfold processNode
  rw [if_pos ⟨hc, rfl⟩]

/-- A row that begins with a diffusion node appends the origin-anchored
leading rectangle first, followed only by rectangles with bottom edge at
`y = 0`. -/
theorem processRow_leading (d : Deck) (kind : String) (c : Node)
    (rest : List Node) (sh sh' : Shapes) (pins : List Pin)
    (hc : c.type = "diff")
    (h : processRow d kind (c :: rest) sh = .ok (sh', pins)) :
    ∃ (b : Box) (new : List Box),
      shGet sh' (dfL kind) = shGet sh (dfL kind) ++ b :: new ∧
      leadingDfBox d b = true ∧ ∀ b' ∈ new, b'.y0 = 0 := by
  unfold processRow at h
  rw [List.length_cons] at h
  unfold processRowAux at h
  simp only [List.getElem?_cons_zero] at h
  split at h
  · simp at h
  · rename_i sh1 pins1 hpn
    split at h
    · simp at h
    · rename_i sh2 pins2 hrec
      simp only [Except.ok.injEq, Prod.mk.injEq] at h
      obtain ⟨hsh, _⟩ := h
      subst hsh
      simp only [if_true] at hpn
      rw [processNode_none_diff _ _ _ _ _ hc] at hpn
      obtain ⟨b, hb, hlead⟩ := genFirstDiff_df d kind c _ sh sh1 pins1 hpn
      obtain ⟨new2, htwo, hy2⟩ :=
        processRowAux_df d kind (c :: rest) rest.length 1 sh1 sh2 pins2 hrec
      refine ⟨b, new2, ?_, hlead, hy2⟩
      rw [htwo, hb]
      simp

/-- A row walk only appends diffusion rectangles with bottom edge `y = 0`. -/
theorem processRow_df (d : Deck) (kind : String) (row : List Node)
    (sh sh' : Shapes) (pins : List Pin)
    (h : processRow d kind row sh = .ok (sh', pins)) :
    ∃ new : List Box, shGet sh' (dfL kind) = shGet sh (dfL kind) ++ new ∧
      ∀ b ∈ new, b.y0 = 0 :=
  processRowAux_df d kind row row.length 0 sh sh' pins h

end DevGen

namespace DevGen

/-- Any two leading-diffusion rectangles of the same deck share their
lower-left corner and have positively overlapping extents. -/
theorem leadingDfBox_overlap (d : Deck) (b1 b2 : Box)
    (h1 : leadingDfBox d b1 = true) (h2 : leadingDfBox d b2 = true)
    (hpos : (0 : PyF) < d.df_enc_co * 2 + d.co_sz) :
    b1.x0 = b2.x0 ∧ b1.y0 = b2.y0 ∧ (0 : PyF) < pyMin b1.x1 b2.x1 ∧
      (0 : PyF) < pyMin b1.y1 b2.y1 := by
  simp only [leadingDfBox, Bool.and_eq_true, decide_eq_true_eq] at h1 h2
  obtain ⟨⟨⟨hx0a, hy0a⟩, hx1a⟩, hy1a⟩ := h1
  obtain ⟨⟨⟨hx0b, hy0b⟩, hx1b⟩, hy1b⟩ := h2
  refine ⟨by rw [hx0a, hx0b], by rw [hy0a, hy0b], ?_, ?_⟩
  · rw [hx1a, hx1b]
    exact pyMin_pos _ _ hpos hpos
  · exact pyMin_pos _ _ (pyF_pos_of_not_lt _ _ hpos hy1a)
      (pyF_pos_of_not_lt _ _ hpos hy1b)

/-- C10: confirmed.  Every topology row is walked from the origin again:
each consumed row that begins with a diffusion node contributes one more
diffusion rectangle anchored at `(0, 0)` with the fixed contacted width,
every diffusion rectangle the walk appends has its bottom edge on `y = 0`,
and any two such leading rectangles (in particular those of different rows
of a multi-row topology) share their lower-left corner and overlap with
positive extent — rows are never offset onto separate tracks. -/
theorem rows_restart_at_origin (d : Deck) (kind : String)
    (rows : List (List Node)) (sh0 sh' : Shapes) (pins : List Pin)
    (hrun : processRows d kind rows sh0 = .ok (sh', pins)) :
    (∀ b ∈ shGet sh' (dfL kind), b ∈ shGet sh0 (dfL kind) ∨ b.y0 = 0) ∧
    ((shGet sh' (dfL kind)).countP (leadingDfBox d) ≥
      (shGet sh0 (dfL kind)).countP (leadingDfBox d) +
        rows.countP rowStartsDiff) ∧
    (∀ b1 b2 : Box, leadingDfBox d b1 = true → leadingDfBox d b2 = true →
      (0 : PyF) < d.df_enc_co * 2 + d.co_sz →
      b1.x0 = b2.x0 ∧ b1.y0 = b2.y0 ∧ (0 : PyF) < pyMin b1.x1 b2.x1 ∧
        (0 : PyF) < pyMin b1.y1 b2.y1) := by
  suffices hmain : (∀ b ∈ shGet sh' (dfL kind),
      b ∈ shGet sh0 (dfL kind) ∨ b.y0 = 0) ∧
      ((shGet sh' (dfL kind)).countP (leadingDfBox d) ≥
        (shGet sh0 (dfL kind)).countP (leadingDfBox d) +
          rows.countP rowStartsDiff) by
    exact ⟨hmain.1, hmain.2, fun b1 b2 h1 h2 hpos =>
      leadingDfBox_overlap d b1 b2 h1 h2 hpos⟩
  induction rows generalizing sh0 pins with
  | nil =>
    unfold processRows at hrun
    simp only [Except.ok.injEq, Prod.mk.injEq] at hrun
    obtain ⟨hsh, _⟩ := hrun
    subst hsh
    exact ⟨fun b hb => Or.inl hb, by simp [List.countP_nil]⟩
  | cons row rest ih =>
    unfold processRows at hrun
    split at hrun
    · simp at hrun
    · rename_i sh1 p1 hrow
      split at hrun
      · simp at hrun
      · rename_i sh2 p2 hrest
        simp only [Except.ok.injEq, Prod.mk.injEq] at hrun
        obtain ⟨hsh, _⟩ := hrun
        subst hsh
        obtain ⟨memIH, cntIH⟩ := ih sh1 p2 hrest
        obtain ⟨newA, hA, hyA⟩ := processRow_df d kind row sh0 sh1 p1 hrow
        constructor
        · intro b hb
          rcases memIH b hb with hb1 | hy
          · rw [hA] at hb1
            rcases List.mem_append.mp hb1 with hb0 | hbn
            · exact Or.inl hb0
            · exact Or.inr (hyA b hbn)
          · exact Or.inr hy
        · match row with
          | [] =>
            have hfalse : ¬ rowStartsDiff ([] : List Node) = true := by
              simp [rowStartsDiff]
            rw [List.countP_cons_of_neg _ _ hfalse]
            have : (shGet sh1 (dfL kind)).countP (leadingDfBox d) ≥
                (shGet sh0 (dfL kind)).countP (leadingDfBox d) := by
              rw [hA, List.countP_append]
              omega
            omega
          | c :: rtl =>
            by_cases hc : c.type = "diff"
            · obtain ⟨b, newB, hB, hbLead, _⟩ :=
                processRow_leading d kind c rtl sh0 sh1 p1 hc hrow
              have htrue : rowStartsDiff (c :: rtl) = true := by
                simp [rowStartsDiff, hc]
              rw [List.countP_cons_of_pos _ _ htrue]
              have : (shGet sh1 (dfL kind)).countP (leadingDfBox d) ≥
                  (shGet sh0 (dfL kind)).countP (leadingDfBox d) + 1 := by
                rw [hB, List.countP_append, List.countP_cons_of_pos _ _ hbLead]
                omega
              omega
            · have hfalse : ¬ rowStartsDiff (c :: rtl) = true := by
                simp [rowStartsDiff, hc]
              rw [List.countP_cons_of_neg _ _ hfalse]
              have : (shGet sh1 (dfL kind)).countP (leadingDfBox d) ≥
                  (shGet sh0 (dfL kind)).countP (leadingDfBox d) := by
                rw [hA, List.countP_append]
                omega
              omega

end DevGen

namespace DevGen

/-- The finger trail row `S G D G S` of `devGroup`, as stored by the
topology stage. -/
def devRow : List Node :=
  [⟨"diff", "S", ⟨1, 4, by norm_num⟩, ⟨1, 2, by norm_num⟩, 0⟩,
   ⟨"gate", "G", ⟨1, 4, by norm_num⟩, ⟨1, 2, by norm_num⟩, 1⟩,
   ⟨"diff", "D", ⟨1, 4, by norm_num⟩, ⟨1, 2, by norm_num⟩, 2⟩,
   ⟨"gate", "G", ⟨1, 4, by norm_num⟩, ⟨1, 2, by norm_num⟩, 4⟩,
   ⟨"diff", "S", ⟨1, 4, by norm_num⟩, ⟨1, 2, by norm_num⟩, 5⟩]

/-- The walk of a two-row topology made of two copies of `devRow`. -/
def c10out : Except PyErr (Shapes × List Pin) :=
  processRows devDeck "nmos" [devRow, devRow] (initShapes "nmos")

/-- Shape table of the two-row walk. -/
def c10sh : Shapes :=
  match c10out with
  | .ok (s, _) => s
  | .error _ => []

/-- Pins of the two-row walk. -/
def c10pins : List Pin :=
  match c10out with
  | .ok (_, p) => p
  | .error _ => []

/-- Witness: walking the two-row topology succeeds and stacks (at least)
two origin-anchored leading diffusion rectangles. -/
theorem rows_restart_at_origin_witness :
    processRows devDeck "nmos" [devRow, devRow] (initShapes "nmos") =
      .ok (c10sh, c10pins) ∧
    (shGet c10sh (dfL "nmos")).countP (leadingDfBox devDeck) ≥
      (shGet (initShapes "nmos") (dfL "nmos")).countP (leadingDfBox devDeck) +
        [devRow, devRow].countP rowStartsDiff :=
  ⟨by rfl,
   (rows_restart_at_origin devDeck "nmos" [devRow, devRow] (initShapes "nmos")
     c10sh c10pins (by rfl)).2.1⟩

end DevGen

namespace DevGen

/-- The boundary inflation `size_incr = 0.5`. -/
def half : PyF := ⟨1, 2, by norm_num⟩

/-- Subtracting the smaller side leaves a non-negative value. -/
theorem pyF_sub_nonneg_of_le (a b : PyF) (h : a ≤ b) : (0 : PyF) ≤ b - a := by
  rw [PyF.le_def] at h ⊢
  have h1 : (b - a).n = b.n * a.d + -a.n * b.d := rfl
  have h2 : (b - a).d = b.d * a.d := rfl
  have h0n : (0 : PyF).n = 0 := rfl
  have h0d : (0 : PyF).d = 1 := rfl
  rw [h1, h2, h0n, h0d]
  nlinarith [h]

/-- The comparison is transitive. -/
theorem pyF_le_trans (a b c : PyF) (h1 : a ≤ b) (h2 : b ≤ c) : a ≤ c := by
  rw [PyF.le_def] at h1 h2 ⊢
  have hb := b.dpos
  have ha := a.dpos
  have hc := c.dpos
  nlinarith [mul_le_mul_of_nonneg_right h1 (le_of_lt hc),
    mul_le_mul_of_nonneg_right h2 (le_of_lt ha)]

/-- Pulling half a unit off decreases the value. -/
theorem pyF_sub_half_le (a : PyF) : a - half ≤ a := by
  rw [PyF.le_def]
  have h1 : (a - half).n = a.n * 2 + -1 * a.d := rfl
  have h2 : (a - half).d = a.d * 2 := rfl
  rw [h1, h2]
  have ha := a.dpos
  nlinarith

/-- Adding half a unit increases the value. -/
theorem pyF_le_add_half (a : PyF) : a ≤ a + half := by
  rw [PyF.le_def]
  have h1 : (a + half).n = a.n * 2 + 1 * a.d := rfl
  have h2 : (a + half).d = a.d * 2 := rfl
  rw [h1, h2]
  have ha := a.dpos
  nlinarith

/-- The comparison is reflexive. -/
theorem pyF_le_refl (a : PyF) : a ≤ a := by
  rw [PyF.le_def]

/-- Members of the table after a write. -/
theorem mem_shPut (s : Shapes) (k : String) (l : List Box)
    (p : String × List Box) (h : p ∈ shPut s k l) : p = (k, l) ∨ p ∈ s := by
  induction s with
  | nil =>
    simp [shPut] at h
    exact Or.inl h
  | cons q rest ih =>
    unfold shPut at h
    split at h
    · rcases List.mem_cons.mp h with h1 | h1
      · exact Or.inl h1
      · exact Or.inr (List.mem_cons_of_mem _ h1)
    · rcases List.mem_cons.mp h with h1 | h1
      · exact Or.inr (h1 ▸ List.mem_cons_self _ _)
      · rcases ih h1 with h2 | h2
        · exact Or.inl h2
        · exact Or.inr (List.mem_cons_of_mem _ h2)

end DevGen

namespace DevGen

/-- C5: corrected.  The spec says origin normalization leaves every
rectangle and pin coordinate non-negative with minima exactly 0.  What
holds: the boundary rectangle is written at `(0, 0)` (its layer holds
exactly that rectangle, so the global minimum is attained there), and all
other coordinates are non-negative exactly when nothing extends more than
the 0.5 inflation below the implant/tap-implant bounding box — the shift
subtracts that box's lower-left corner minus 0.5, so a shape sticking out
further (a tall poly end cap, for instance) keeps a negative coordinate. -/
theorem createBoundary_origin (d : Deck) (kind : String) (sh : Shapes)
    (pins : List Pin) (mx0 mx1 my0 my1 : PyF)
    (hm : mergeShape (shGet sh (imL kind) ++ shGet sh (timL kind)) =
      some (mx0, mx1, my0, my1))
    (hmx : mx0 ≤ mx1) (hmy : my0 ≤ my1)
    (hbox : ∀ p ∈ sh, ∀ b ∈ p.2, mx0 - half ≤ b.x0 ∧ mx0 - half ≤ b.x1 ∧
      my0 - half ≤ b.y0 ∧ my0 - half ≤ b.y1)
    (hpin : ∀ q ∈ pins, mx0 - half ≤ q.x0 ∧ mx0 - half ≤ q.x1 ∧
      my0 - half ≤ q.y0 ∧ my0 - half ≤ q.y1) :
    ∃ lo : LayoutOut, createBoundary d kind sh pins = .ok lo ∧
      lo.boundary.x0 = 0 ∧ lo.boundary.y0 = 0 ∧
      shGet lo.shape "boundary" = [lo.boundary] ∧
      (∀ p ∈ lo.shape, ∀ b ∈ p.2, (0 : PyF) ≤ b.x0 ∧ (0 : PyF) ≤ b.x1 ∧
        (0 : PyF) ≤ b.y0 ∧ (0 : PyF) ≤ b.y1) ∧
      (∀ q ∈ lo.pin, (0 : PyF) ≤ q.x0 ∧ (0 : PyF) ≤ q.x1 ∧
        (0 : PyF) ≤ q.y0 ∧ (0 : PyF) ≤ q.y1) := by
  unfold createBoundary
  rw [hm]
  refine ⟨_, rfl, rfl, rfl, shGet_shPut_self _ _ _, ?_, ?_⟩
  · intro p hp b hb
    rcases mem_shPut _ _ _ _ hp with hpb | hps
    · subst hpb
      simp only [List.mem_singleton] at hb
      subst hb
      refine ⟨pyF_le_refl _, ?_, pyF_le_refl _, ?_⟩
      · exact pyF_sub_nonneg_of_le _ _ (pyF_le_trans _ _ _
          (pyF_sub_half_le mx0) (pyF_le_trans _ _ _ hmx (pyF_le_add_half mx1)))
      · exact pyF_sub_nonneg_of_le _ _ (pyF_le_trans _ _ _
          (pyF_sub_half_le my0) (pyF_le_trans _ _ _ hmy (pyF_le_add_half my1)))
    · obtain ⟨p0, hp0, hpeq⟩ := List.mem_map.mp hps
      subst hpeq
      obtain ⟨b0, hb0, hbeq⟩ := List.mem_map.mp hb
      subst hbeq
      obtain ⟨h1, h2, h3, h4⟩ := hbox p0 hp0 b0 hb0
      exact ⟨pyF_sub_nonneg_of_le _ _ h1, pyF_sub_nonneg_of_le _ _ h2,
        pyF_sub_nonneg_of_le _ _ h3, pyF_sub_nonneg_of_le _ _ h4⟩
  · intro q hq
    obtain ⟨q0, hq0, hqeq⟩ := List.mem_map.mp hq
    subst hqeq
    obtain ⟨h1, h2, h3, h4⟩ := hpin q0 hq0
    exact ⟨pyF_sub_nonneg_of_le _ _ h1, pyF_sub_nonneg_of_le _ _ h2,
      pyF_sub_nonneg_of_le _ _ h3, pyF_sub_nonneg_of_le _ _ h4⟩

/-- A one-rectangle implant table for exercising the normalization. -/
def c5wsh : Shapes := [("nimplant", [⟨"nimplant", 0, 0, 1, 1⟩])]

/-- Witness: on the one-rectangle table the merge is `(0, 1, 0, 1)`, all
bound hypotheses hold, and the normalized output is non-negative. -/
theorem createBoundary_origin_witness :
    (mergeShape (shGet c5wsh (imL "nmos") ++ shGet c5wsh (timL "nmos")) =
      some (0, 1, 0, 1)) ∧
    ∃ lo : LayoutOut, createBoundary devDeck "nmos" c5wsh [] = .ok lo ∧
      lo.boundary.x0 = 0 ∧ lo.boundary.y0 = 0 ∧
      shGet lo.shape "boundary" = [lo.boundary] ∧
      (∀ p ∈ lo.shape, ∀ b ∈ p.2, (0 : PyF) ≤ b.x0 ∧ (0 : PyF) ≤ b.x1 ∧
        (0 : PyF) ≤ b.y0 ∧ (0 : PyF) ≤ b.y1) ∧
      (∀ q ∈ lo.pin, (0 : PyF) ≤ q.x0 ∧ (0 : PyF) ≤ q.x1 ∧
        (0 : PyF) ≤ q.y0 ∧ (0 : PyF) ≤ q.y1) :=
  ⟨by decide,
   createBoundary_origin devDeck "nmos" c5wsh [] 0 1 0 1 (by decide)
     (by decide) (by decide) (by decide) (by decide)⟩

/-- A deck whose poly end caps extend a full unit past the diffusion. -/
def c5deck : Deck :=
  { devDeck with po_ext_df := ⟨1, 1, by norm_num⟩, im_enc_ga := ⟨0, 1, by norm_num⟩ }

/-- Counterexample to C5 as stated: with the long end caps the normalized
layout keeps a poly rectangle with a negative bottom edge, even though the
boundary sits at the origin. -/
theorem c5_negative_coordinate_counterexample :
    (generateLayout c5deck devGroup [devRow] []).map
      (fun lo => (lo.boundary.x0, lo.boundary.y0,
        (shGet lo.shape "poly").any fun b => decide (b.y0 < (0 : PyF)))) =
    .ok (0, 0, true) := by rfl

end DevGen

namespace DevGen

/-- `min` never exceeds its first argument. -/
theorem pyMin_le_left (a b : PyF) : pyMin a b ≤ a := by
  unfold pyMin
  split
  · rw [PyF.le_def]
    omega
  · exact pyF_le_refl a

/-- `min` never exceeds its second argument. -/
theorem pyMin_le_right (a b : PyF) : pyMin a b ≤ b := by
  unfold pyMin
  split
  · exact pyF_le_refl b
  · rw [PyF.le_def]
    omega

/-- `max` is at least its first argument. -/
theorem le_pyMax_left (a b : PyF) : a ≤ pyMax a b := by
  unfold pyMax
  split
  · rw [PyF.le_def]
    omega
  · exact pyF_le_refl a

/-- `max` is at least its second argument. -/
theorem le_pyMax_right (a b : PyF) : b ≤ pyMax a b := by
  unfold pyMax
  split
  · exact pyF_le_refl b
  · rw [PyF.le_def]
    omega

/-- The running `min` over a list bounds the seed and every element. -/
theorem foldl_pyMin_le (t : List PyF) : ∀ acc : PyF,
    t.foldl pyMin acc ≤ acc ∧ ∀ x ∈ t, t.foldl pyMin acc ≤ x := by
  induction t with
  | nil => exact fun acc => ⟨pyF_le_refl acc, by simp⟩
  | cons h t ih =>
    intro acc
    obtain ⟨hacc, hmem⟩ := ih (pyMin acc h)
    refine ⟨pyF_le_trans _ _ _ hacc (pyMin_le_left acc h), ?_⟩
    intro x hx
    rcases List.mem_cons.mp hx with hx1 | hx1
    · subst hx1
      exact pyF_le_trans _ _ _ hacc (pyMin_le_right acc x)
    · exact hmem x hx1

/-- The running `max` over a list dominates the seed and every element. -/
theorem le_foldl_pyMax (t : List PyF) : ∀ acc : PyF,
    acc ≤ t.foldl pyMax acc ∧ ∀ x ∈ t, x ≤ t.foldl pyMax acc := by
  induction t with
  | nil => exact fun acc => ⟨pyF_le_refl acc, by simp⟩
  | cons h t ih =>
    intro acc
    obtain ⟨hacc, hmem⟩ := ih (pyMax acc h)
    refine ⟨pyF_le_trans _ _ _ (le_pyMax_left acc h) hacc, ?_⟩
    intro x hx
    rcases List.mem_cons.mp hx with hx1 | hx1
    · subst hx1
      exact pyF_le_trans _ _ _ (le_pyMax_right acc x) hacc
    · exact hmem x hx1

/-- `min(list)` bounds every member. -/
theorem listMin_le_mem (l : List PyF) (x : PyF) (hx : x ∈ l) :
    listMin l ≤ x := by
  cases l with
  | nil => cases hx
  | cons h t =>
    rcases List.mem_cons.mp hx with h1 | h1
    · subst h1
      exact (foldl_pyMin_le t x).1
    · exact (foldl_pyMin_le t h).2 x h1

/-- `max(list)` dominates every member. -/
theorem mem_le_listMax (l : List PyF) (x : PyF) (hx : x ∈ l) :
    x ≤ listMax l := by
  cases l with
  | nil => cases hx
  | cons h t =>
    rcases List.mem_cons.mp hx with h1 | h1
    · subst h1
      exact (le_foldl_pyMax t x).1
    · exact (le_foldl_pyMax t h).2 x h1

/-- The merged extent is a bounding box of every merged rectangle. -/
theorem mergeShape_bounds (boxes : List Box) (x0 x1 y0 y1 : PyF)
    (hm : mergeShape boxes = some (x0, x1, y0, y1)) :
    ∀ b ∈ boxes, x0 ≤ b.x0 ∧ b.x1 ≤ x1 ∧ y0 ≤ b.y0 ∧ b.y1 ≤ y1 := by
  intro b hb
  unfold mergeShape at hm
  match boxes, hb with
  | bx :: rest, hb =>
    simp only [Option.some.injEq, Prod.mk.injEq] at hm
    obtain ⟨hx0, hx1, hy0, hy1⟩ := hm
    have hbx0 : b.x0 ∈ (bx :: rest).flatMap fun b => [b.x0, b.x1] := by
      refine List.mem_flatMap.mpr ⟨b, hb, by simp⟩
    have hbx1 : b.x1 ∈ (bx :: rest).flatMap fun b => [b.x0, b.x1] := by
      refine List.mem_flatMap.mpr ⟨b, hb, by simp⟩
    have hby0 : b.y0 ∈ (bx :: rest).flatMap fun b => [b.y0, b.y1] := by
      refine List.mem_flatMap.mpr ⟨b, hb, by simp⟩
    have hby1 : b.y1 ∈ (bx :: rest).flatMap fun b => [b.y0, b.y1] := by
      refine List.mem_flatMap.mpr ⟨b, hb, by simp⟩
    exact ⟨hx0 ▸ listMin_le_mem _ _ hbx0, hx1 ▸ mem_le_listMax _ _ hbx1,
      hy0 ▸ listMin_le_mem _ _ hby0, hy1 ▸ mem_le_listMax _ _ hby1⟩

end DevGen

namespace DevGen

/-- C6: corrected.  The spec says the implant layer always ends as one
merged rectangle of area at least `im_area`, healed symmetrically about
the center with a grid snap that preserves the minimum.  What holds: when
every merged coordinate is non-zero (the source guards the merge with
Python truthiness, so a coordinate equal to 0 skips the merge entirely)
and the merged extent already meets the minimum area, the layer becomes
exactly that single bounding rectangle, which contains every inflated
implant rectangle.  When the heal runs, it is asymmetric (the upper edges
scale against the already-moved lower edges) and the final grid rounding
can shrink the rectangle below the minimum again. -/
theorem insertImplant_minimum_area (d : Deck) (kind : String) (sh : Shapes)
    (x0 x1 y0 y1 : PyF)
    (hm : mergeShape (shGet (inflateImplant d kind sh) (imL kind)) =
      some (x0, x1, y0, y1))
    (hnz : x0.n ≠ 0 ∧ x1.n ≠ 0 ∧ y0.n ≠ 0 ∧ y1.n ≠ 0)
    (harea : ¬ (x1 - x0) * (y1 - y0) < d.im_area) :
    shGet (insertImplantShape d kind sh) (imL kind) =
      [⟨imL kind, x0, y0, x1, y1⟩] ∧
    ∀ b ∈ shGet (inflateImplant d kind sh) (imL kind),
      x0 ≤ b.x0 ∧ b.x1 ≤ x1 ∧ y0 ≤ b.y0 ∧ b.y1 ≤ y1 := by
  constructor
  · unfold insertImplantShape
    dsimp only
    rw [hm]
    dsimp only
    rw [if_pos hnz, if_neg harea]
    exact shGet_shPut_self _ _ _
  · exact mergeShape_bounds _ x0 x1 y0 y1 hm

/-- A one-diffusion table for exercising the merge. -/
def c6wsh : Shapes := [("ndiffusion", [⟨"ndiffusion", 0, 0, 1, 1⟩])]

/-- Witness: on the one-diffusion table the inflated merge is the single
rectangle `(-1/8, -1/4) — (9/8, 5/4)` and it meets the (zero) minimum. -/
theorem insertImplant_minimum_area_witness :
    (mergeShape (shGet (inflateImplant devDeck "nmos" c6wsh) (imL "nmos")) =
      some (⟨-1, 8, by norm_num⟩, ⟨9, 8, by norm_num⟩,
        ⟨-1, 4, by norm_num⟩, ⟨5, 4, by norm_num⟩)) ∧
    (shGet (insertImplantShape devDeck "nmos" c6wsh) (imL "nmos") =
      [⟨imL "nmos", ⟨-1, 8, by norm_num⟩, ⟨-1, 4, by norm_num⟩,
        ⟨9, 8, by norm_num⟩, ⟨5, 4, by norm_num⟩⟩] ∧
    ∀ b ∈ shGet (inflateImplant devDeck "nmos" c6wsh) (imL "nmos"),
      (⟨-1, 8, by norm_num⟩ : PyF) ≤ b.x0 ∧ b.x1 ≤ ⟨9, 8, by norm_num⟩ ∧
      (⟨-1, 4, by norm_num⟩ : PyF) ≤ b.y0 ∧ b.y1 ≤ ⟨5, 4, by norm_num⟩) :=
  ⟨by decide,
   insertImplant_minimum_area devDeck "nmos" c6wsh _ _ _ _ (by decide)
     (by decide) (by decide)⟩

/-- A deck with a coarse grid and a large implant minimum area: the heal
triggers with an exact scale factor of 2 and the grid snap collapses the
rectangle. -/
def c6deck : Deck :=
  { devDeck with
    grid := ⟨16, 1, by norm_num⟩,
    im_enc_ga := ⟨1, 8, by norm_num⟩,
    im_area := ⟨33, 4, by norm_num⟩ }

set_option maxRecDepth 8000 in
/-- Counterexample to C6 as stated: after the heal and grid snap the
implant layer holds a single rectangle of area 0, strictly below the
minimum area rule. -/
theorem c6_heal_below_minimum_counterexample :
    (generateLayout c6deck devGroup [devRow] []).map
      (fun lo => (shGet lo.shape "nimplant").map
        (fun b => decide ((b.x1 - b.x0) * (b.y1 - b.y0) < c6deck.im_area))) =
    .ok [true] := by rfl

end DevGen

namespace DevGen

/-- The pre-existing pin list flows through the layout run untouched until
the final shift: running with `pins0` equals running with an empty pin
list and prepending the shifted `pins0`. -/
theorem generateLayout_pins (d : Deck) (g : Group)
    (topology : List (List Node)) (pins0 : List Pin) :
    generateLayout d g topology pins0 =
      (generateLayout d g topology []).map (fun lo =>
        { lo with pin := pins0.map (shiftPin lo.ox lo.oy) ++ lo.pin }) := by
  unfold generateLayout
  cases hrows : processRows d g.type topology (initShapes g.type) with
  | error e => rfl
  | ok pr =>
    obtain ⟨sh1, p1⟩ := pr
    dsimp only
    cases hh : g.inst.head? with
    | none => rfl
    | some inst0 =>
      dsimp only
      cases hbody : createBody d g.type g.tap inst0.bulk
          (insertImplantShape d g.type sh1) with
      | error e => rfl
      | ok pr2 =>
        obtain ⟨sh3, p2⟩ := pr2
        dsimp only
        unfold createBoundary
        cases hm : mergeShape
            (shGet (insertNwellShape d g.type sh3) (imL g.type) ++
              shGet (insertNwellShape d g.type sh3) (timL g.type)) with
        | none => rfl
        | some q =>
          obtain ⟨bx0, bx1, qy0, qy1⟩ := q
          simp [Except.map, List.map_append]

/-- C4: corrected.  The spec says running the core twice on the same group
yields bit-identical shape, pin, and boundary records.  Topology, shape
table, and boundary are indeed reproduced exactly — those are rebuilt from
scratch each run — but `group.pin` is never reset: the second run re-shifts
the first run's pins by the (re-derived) origin offset and appends the
freshly generated pins, so the pin list doubles instead of being equal. -/
theorem core_rerun_duplicates_pins (fuel : ℕ) (db : PyF) (sf sm : List ℤ)
    (d : Deck) (g : Group) (topo1 topo2 : List (List Node))
    (lo1 lo2 : LayoutOut)
    (h1 : coreOnce fuel db sf sm d g [] = .ok (topo1, lo1))
    (h2 : coreOnce fuel db sf sm d g lo1.pin = .ok (topo2, lo2)) :
    topo2 = topo1 ∧ lo2.shape = lo1.shape ∧ lo2.boundary = lo1.boundary ∧
    lo2.pin = lo1.pin.map (shiftPin lo1.ox lo1.oy) ++ lo1.pin ∧
    (lo1.pin ≠ [] → lo2.pin ≠ lo1.pin) := by
  unfold coreOnce at h1 h2
  cases htopo : generateTopology fuel db sf sm g with
  | error e =>
    rw [htopo] at h1
    simp at h1
  | ok topo =>
    rw [htopo] at h1 h2
    dsimp only at h1 h2
    cases hl1 : generateLayout d g topo [] with
    | error e =>
      rw [hl1] at h1
      simp at h1
    | ok lo =>
      rw [hl1] at h1
      simp only [Except.ok.injEq, Prod.mk.injEq] at h1
      obtain ⟨htopo1, hlo1⟩ := h1
      subst htopo1
      subst hlo1
      rw [generateLayout_pins d g topo lo.pin, hl1] at h2
      simp only [Except.map, Except.ok.injEq, Prod.mk.injEq] at h2
      obtain ⟨htopo2, hlo2⟩ := h2
      subst htopo2
      subst hlo2
      refine ⟨rfl, rfl, rfl, rfl, ?_⟩
      intro hne hEq
      have hlen := congrArg List.length hEq
      simp only [List.length_append, List.length_map] at hlen
      have : lo.pin.length = 0 := by omega
      exact hne (List.length_eq_zero.mp this)

end DevGen

namespace DevGen

/-- First core run on `devGroup` from an empty pin list (`[2]`/`[1]` are
the set-iteration orders of its finger and multiplier vectors). -/
def c4first : Except PyErr (List (List Node) × LayoutOut) :=
  coreOnce 1000 (PyF.ofInt 1) [2] [1] devDeck devGroup []

/-- Topology stored by the first run. -/
def c4topo : List (List Node) :=
  match c4first with
  | .ok (t, _) => t
  | .error _ => []

/-- Layout output of the first run. -/
def c4lo1 : LayoutOut :=
  match c4first with
  | .ok (_, lo) => lo
  | .error _ => ⟨[], [], ⟨"", 0, 0, 0, 0⟩, 0, 0⟩

/-- Second core run on the same group record, starting from the pin list
the first run left behind. -/
def c4second : Except PyErr (List (List Node) × LayoutOut) :=
  coreOnce 1000 (PyF.ofInt 1) [2] [1] devDeck devGroup c4lo1.pin

/-- Topology stored by the second run. -/
def c4topo2 : List (List Node) :=
  match c4second with
  | .ok (t, _) => t
  | .error _ => []

/-- Layout output of the second run. -/
def c4lo2 : LayoutOut :=
  match c4second with
  | .ok (_, lo) => lo
  | .error _ => ⟨[], [], ⟨"", 0, 0, 0, 0⟩, 0, 0⟩

/-- Counterexample to C4 as stated: the second run reproduces the shape
table and boundary but leaves ten pins where the first run left five, so
the pin record is not bit-identical. -/
theorem c4_pin_growth_counterexample :
    c4lo1.pin.length = 5 ∧ c4lo2.pin.length = 10 ∧
    c4lo2.shape = c4lo1.shape ∧ c4lo2.pin ≠ c4lo1.pin := by
  refine ⟨by rfl, by rfl, by rfl, by decide⟩

/-- Witness: both concrete runs succeed and the rerun theorem's conclusion
holds for them. -/
theorem core_rerun_duplicates_pins_witness :
    coreOnce 1000 (PyF.ofInt 1) [2] [1] devDeck devGroup [] = .ok (c4topo, c4lo1) ∧
    (c4topo2 = c4topo ∧ c4lo2.shape = c4lo1.shape ∧
      c4lo2.boundary = c4lo1.boundary ∧
      c4lo2.pin = c4lo1.pin.map (shiftPin c4lo1.ox c4lo1.oy) ++ c4lo1.pin ∧
      (c4lo1.pin ≠ [] → c4lo2.pin ≠ c4lo1.pin)) :=
  ⟨by rfl,
   core_rerun_duplicates_pins 1000 (PyF.ofInt 1) [2] [1] devDeck devGroup
     c4topo c4topo2 c4lo1 c4lo2 (by rfl) (by rfl)⟩

end DevGen
